import Mathlib

/-!
# Verification of the stellar-core ledger apply engine

A shallow embedding of the archival/restore subsystem of the repository:

* `src/invariant/ArchivedStateConsistency.cpp` (startup scan, eviction and
  restoration invariant checks run on every ledger commit),
* `src/transactions/InvokeHostFunctionOpFrame.cpp` (footprint assembly,
  archived-entry handling, post-execution failure mapping, event metering),
* `src/transactions/RestoreFootprintOpFrame.cpp` (restore-footprint apply and
  validity checking),
* `src/invariant/InvariantManagerImpl.cpp` (invariant enablement).

Machine integers of the source are modelled as `Nat` (the quantities involved
are ledger sequence numbers, byte counts and instruction counts, far from the
2^32/2^64 wrap in every reachable state).  XDR maps and the `UnorderedMap`s of
the source are modelled as association lists; iteration order of the C++
containers is represented by list order.
-/

namespace StellarCore

/-! ## Protocol version helpers (util/ProtocolVersion.h) -/

/-- `protocolVersionStartsFrom(v, first)` from util/ProtocolVersion.h:
true when `v >= first`. -/
def protocolVersionStartsFrom (v first : Nat) : Bool := first ≤ v

/-- `protocolVersionIsBefore(v, first)` from util/ProtocolVersion.h:
true when `v < first`. -/
def protocolVersionIsBefore (v first : Nat) : Bool := v < first

/-- Modelled from the spec: autorestore and the hot archive start at protocol
23 (`HotArchiveBucket::FIRST_PROTOCOL_SUPPORTING_PERSISTENT_EVICTION`, whose
defining header is not part of the sources; the source comments say
"autorestore support started in p23" and "Next check the hot archive if
protocol >= 23"). -/
def FIRST_PROTOCOL_SUPPORTING_PERSISTENT_EVICTION : Nat := 23

/-- Modelled from the spec: `AUTO_RESTORE_PROTOCOL_VERSION` used by
`ApplyHelper::addReads`; the source comment says "Prior to protocol 23, all
entries are metered". -/
def AUTO_RESTORE_PROTOCOL_VERSION : Nat := 23

/-- `ProtocolVersion::V_24`. -/
def PROTOCOL_V24 : Nat := 24

/-! ## Key and entry model

Modelled from the spec: the XDR definitions of `LedgerKey` and `LedgerEntry`
are not part of the sources.  The spec describes a tagged union of classic
keys, contract-data and contract-code keys (with a persistence class) and TTL
keys; classic variants are represented here by `account` and `trustline`.
Payloads are abstracted to a pair of `Nat` fields: `data` stands for the body
of the `LedgerEntry.data` union (for a TTL entry it is `liveUntilLedgerSeq`)
and `ext` for the extension slot; `entrySizeBytes` stands for the XDR
serialized size of the entry, which the source computes with `xdr::xdr_size`.
-/

/-- `ContractDataDurability` from the XDR. -/
inductive ContractDurability
  | temporary
  | persistent
deriving DecidableEq, Repr

/-- `LedgerKey`: the tagged union of key variants used by the subsystem. -/
inductive LedgerKey
  | account (id : Nat)
  | trustline (id : Nat)
  | contractData (contract : Nat) (key : Nat) (durability : ContractDurability)
  | contractCode (hash : Nat)
  | ttl (keyHash : Nat)
deriving DecidableEq, Repr

/-- `LedgerEntry`: a key, the `lastModifiedLedgerSeq` counter, the abstract
payload (`data`, `ext`) and its abstract serialized size. -/
structure LedgerEntry where
  key : LedgerKey
  lastModifiedLedgerSeq : Nat
  data : Nat
  ext : Nat
  entrySizeBytes : Nat
deriving DecidableEq, Repr

/-- `LedgerEntryKey(e)`. -/
def LedgerEntryKey (e : LedgerEntry) : LedgerKey := e.key

/-- An injective encoding of keys into `Nat`, standing for the canonical XDR
encoding that orders both stores. -/
def encodeKey : LedgerKey → Nat
  | .account i => 7 * i
  | .trustline i => 7 * i + 1
  | .contractData c k .temporary => 7 * Nat.pair c k + 2
  | .contractData c k .persistent => 7 * Nat.pair c k + 3
  | .contractCode h => 7 * h + 4
  | .ttl h => 7 * h + 5

/-- The canonical strict order on keys (`LedgerCmp`), via the encoding. -/
def keyLt (a b : LedgerKey) : Bool := encodeKey a < encodeKey b

/-- Modelled from the spec: `ttl_key_of(key)` is a deterministic (injective)
function of the key; the source derives the TTL key from the hash of the
key's XDR encoding (`getTTLKey` in ledger/LedgerTypeUtils). -/
def getTTLKey (k : LedgerKey) : LedgerKey := .ttl (encodeKey k)

/-- `getTTLKey` applied to an entry uses the entry's own key. -/
def getTTLKeyOfEntry (e : LedgerEntry) : LedgerKey := getTTLKey e.key

/-- Modelled from the spec: `is_persistent(key)` — contract code entries and
contract data entries flagged persistent (ledger/LedgerTypeUtils). -/
def isPersistentEntry : LedgerKey → Bool
  | .contractCode _ => true
  | .contractData _ _ .persistent => true
  | _ => false

/-- Modelled from the spec: `is_temporary(key)` — contract data entries
flagged temporary (ledger/LedgerTypeUtils). -/
def isTemporaryEntry : LedgerKey → Bool
  | .contractData _ _ .temporary => true
  | _ => false

/-- Modelled from the spec: `is_contract(key)` — contract data or contract
code (`isSorobanEntry` in ledger/LedgerTypeUtils). -/
def isSorobanEntry : LedgerKey → Bool
  | .contractData _ _ _ => true
  | .contractCode _ => true
  | _ => false

/-- `isContractCodeEntry(key)`. -/
def isContractCodeEntry : LedgerKey → Bool
  | .contractCode _ => true
  | _ => false

/-- Modelled from the spec: `is_live(ttl_entry, ledger_seq) :=
ttl_entry.live_until_ledger ≥ ledger_seq`.  For a TTL entry the abstract
`data` field is `liveUntilLedgerSeq`. -/
def isLive (ttlEntry : LedgerEntry) (ledgerSeq : Nat) : Bool :=
  ledgerSeq ≤ ttlEntry.data

/-- A TTL ledger entry written at restore time: key `TTL(k)`, payload
`liveUntil`.  TTL entry write sizes are charged against the refundable fee and
never metered, so the abstract size is 0. -/
def mkTTLEntry (k : LedgerKey) (lastModified liveUntil : Nat) : LedgerEntry :=
  { key := getTTLKey k, lastModifiedLedgerSeq := lastModified,
    data := liveUntil, ext := 0, entrySizeBytes := 0 }

/-! ## Association-list stores -/

/-- Key lookup in an association-list store (`UnorderedMap::find`,
`LedgerTxn::loadWithoutRecord`, snapshot `load`). -/
def lookupEntry : List (LedgerKey × LedgerEntry) → LedgerKey → Option LedgerEntry
  | [], _ => none
  | (k, e) :: rest, k' => if k = k' then some e else lookupEntry rest k'

/-- Insert-or-replace an entry by its key. -/
def insertEntry (m : List (LedgerKey × LedgerEntry)) (e : LedgerEntry) :
    List (LedgerKey × LedgerEntry) :=
  (e.key, e) :: m.filter (fun p => ¬(p.1 = e.key))

/-- Remove a key from a store. -/
def removeKey (m : List (LedgerKey × LedgerEntry)) (k : LedgerKey) :
    List (LedgerKey × LedgerEntry) :=
  m.filter (fun p => ¬(p.1 = k))

/-- Membership of a key in a key list (`LedgerKeySet`/`UnorderedSet`). -/
def keyMem (k : LedgerKey) : List LedgerKey → Bool
  | [] => false
  | k' :: rest => if k' = k then true else keyMem k rest

/-- First failure produced by `f` over a list: the early-return pattern of the
source's per-element check loops. -/
def firstFailure (f : α → Option β) : List α → Option β
  | [] => none
  | a :: rest =>
    match f a with
    | some b => some b
    | none => firstFailure f rest

end StellarCore

namespace StellarCore

/-! ## ArchivedStateConsistency (invariant/ArchivedStateConsistency.cpp)

The checker returns an error message (a nonempty string) on failure and the
empty string on success; failures are modelled by inductives naming the
message that the source formats, so the result type is `Option _Failure`.
-/

/-- `key.type() == TTL`. -/
def isTTLKey : LedgerKey → Bool
  | .ttl _ => true
  | _ => false

/-- The failure messages `checkEvictionInvariants` can format (plus the
`releaseAssertOrThrow(isPersistentEntry(...))` abort at its head). -/
inductive EvictionFailure
  | assertNonPersistentEvicted (k : LedgerKey)
  | evictedAlreadyInArchive (k : LedgerKey)
  | evictedNotInLive (k : LedgerKey)
  | evictedTTLMissing (k : LedgerKey)
  | evictedTTLStillLive (k : LedgerKey)
  | outdatedEntryEvicted (k : LedgerKey)
  | tempKeyNotInLive (k : LedgerKey)
  | tempTTLMissing (k : LedgerKey)
  | tempTTLStillLive (k : LedgerKey)
  | countMismatch (ttls temps archived : Nat)
deriving DecidableEq, Repr

/-- The body of the first loop of
`ArchivedStateConsistency::checkEvictionInvariants`, run on one entry of
`archivedEntries` (the `evictedFromLive` delta). -/
def checkEvictedEntry (preloadedLiveEntries preloadedArchivedEntries :
    List (LedgerKey × LedgerEntry)) (ledgerSeq ledgerVers : Nat)
    (archivedEntry : LedgerEntry) : Option EvictionFailure :=
  if ¬(isPersistentEntry archivedEntry.key = true) then
    some (.assertNonPersistentEvicted archivedEntry.key)
  else
    let lk := LedgerEntryKey archivedEntry
    if (lookupEntry preloadedArchivedEntries lk).isSome then
      some (.evictedAlreadyInArchive lk)
    else
      match lookupEntry preloadedLiveEntries lk with
      | none => some (.evictedNotInLive lk)
      | some liveEntry =>
        match lookupEntry preloadedLiveEntries (getTTLKeyOfEntry archivedEntry) with
        | none => some (.evictedTTLMissing lk)
        | some ttlEntry =>
          if isLive ttlEntry ledgerSeq then some (.evictedTTLStillLive lk)
          else if protocolVersionStartsFrom ledgerVers PROTOCOL_V24 ∧
              ¬(archivedEntry = liveEntry) then
            some (.outdatedEntryEvicted lk)
          else none

/-- The second loop of `checkEvictionInvariants`: walks `deletedKeys`,
validating each temporary key and counting temporary keys (`temps`) and
non-temporary (TTL) keys (`ttls`). -/
def evictionDeletedLoop (preloadedLiveEntries : List (LedgerKey × LedgerEntry))
    (ledgerSeq : Nat) :
    List LedgerKey → Nat → Nat → Except EvictionFailure (Nat × Nat)
  | [], temps, ttls => .ok (temps, ttls)
  | lk :: rest, temps, ttls =>
    if isTemporaryEntry lk then
      match lookupEntry preloadedLiveEntries lk with
      | none => .error (.tempKeyNotInLive lk)
      | some _ =>
        match lookupEntry preloadedLiveEntries (getTTLKey lk) with
        | none => .error (.tempTTLMissing lk)
        | some ttlEntry =>
          if isLive ttlEntry ledgerSeq then .error (.tempTTLStillLive lk)
          else evictionDeletedLoop preloadedLiveEntries ledgerSeq rest
            (temps + 1) ttls
    else evictionDeletedLoop preloadedLiveEntries ledgerSeq rest temps (ttls + 1)

/-- `ArchivedStateConsistency::checkEvictionInvariants`. -/
def checkEvictionInvariants (preloadedLiveEntries preloadedArchivedEntries :
    List (LedgerKey × LedgerEntry)) (deletedKeys : List LedgerKey)
    (archivedEntries : List LedgerEntry) (ledgerSeq ledgerVers : Nat) :
    Option EvictionFailure :=
  if deletedKeys.isEmpty ∧ archivedEntries.isEmpty then none
  else
    match firstFailure
        (checkEvictedEntry preloadedLiveEntries preloadedArchivedEntries
          ledgerSeq ledgerVers) archivedEntries with
    | some f => some f
    | none =>
      match evictionDeletedLoop preloadedLiveEntries ledgerSeq deletedKeys 0 0 with
      | .error f => some f
      | .ok (temps, ttls) =>
        if temps + archivedEntries.length ≠ ttls then
          some (.countMismatch ttls temps archivedEntries.length)
        else none

/-- The failure messages `checkRestoreInvariants` can format. -/
inductive RestoreFailure
  | liveRestoreNotPersistent (k : LedgerKey)
  | liveRestoreTTLMissing (k : LedgerKey)
  | archiveRestoreNotPersistent (k : LedgerKey)
  | archiveRestoreTTLMissing (k : LedgerKey)
  | archiveRestoreStillInLive (k : LedgerKey)
  | archiveRestoreNotInArchive (k : LedgerKey)
  | archiveRestoreValueMismatch (k : LedgerKey)
  | liveRestoreInArchive (k : LedgerKey)
  | liveRestoreNotInLive (k : LedgerKey)
  | liveRestoreValueMismatch (k : LedgerKey)
  | liveRestoreNotExpired (k : LedgerKey)
deriving DecidableEq, Repr

/-- First loop of `checkRestoreInvariants`: every non-TTL key restored from
the live state is persistent and paired with its TTL key in the same map. -/
def checkRestoredFromLivePairing (restoredFromLiveState :
    List (LedgerKey × LedgerEntry)) (p : LedgerKey × LedgerEntry) :
    Option RestoreFailure :=
  if isTTLKey p.1 then none
  else if ¬(isPersistentEntry p.1 = true) then some (.liveRestoreNotPersistent p.1)
  else if (lookupEntry restoredFromLiveState (getTTLKey p.1)).isNone then
    some (.liveRestoreTTLMissing p.1)
  else none

/-- Second loop of `checkRestoreInvariants`: the same pairing conditions for
the restored-from-archive map. -/
def checkRestoredFromArchivePairing (restoredFromArchive :
    List (LedgerKey × LedgerEntry)) (p : LedgerKey × LedgerEntry) :
    Option RestoreFailure :=
  if isTTLKey p.1 then none
  else if ¬(isPersistentEntry p.1 = true) then
    some (.archiveRestoreNotPersistent p.1)
  else if (lookupEntry restoredFromArchive (getTTLKey p.1)).isNone then
    some (.archiveRestoreTTLMissing p.1)
  else none

/-- Third loop of `checkRestoreInvariants`: each hot-archive restore is absent
from the live state and (for non-TTL keys) exists in the hot archive; the
payload comparison translates the source condition

  !(hotArchiveEntry->second.archivedEntry().data == entry.data) ||
      !(hotArchiveEntry->second.archivedEntry().ext == entry.ext) &&
          protocolVersionStartsFrom(ledgerVer, ProtocolVersion::V_24)

with the C++ precedence (`&&` binds tighter than `||`), so only the `ext`
comparison is guarded by the protocol check. -/
def checkRestoredFromArchiveEntry (preloadedLiveEntries
    preloadedArchivedEntries : List (LedgerKey × LedgerEntry))
    (ledgerVer : Nat) (p : LedgerKey × LedgerEntry) : Option RestoreFailure :=
  if (lookupEntry preloadedLiveEntries p.1).isSome then
    some (.archiveRestoreStillInLive p.1)
  else if isTTLKey p.1 then none
  else
    match lookupEntry preloadedArchivedEntries p.1 with
    | none => some (.archiveRestoreNotInArchive p.1)
    | some hotArchiveEntry =>
      if ¬(hotArchiveEntry.data = p.2.data) ∨
          (¬(hotArchiveEntry.ext = p.2.ext) ∧
            protocolVersionStartsFrom ledgerVer PROTOCOL_V24 = true) then
        some (.archiveRestoreValueMismatch p.1)
      else none

/-- Fourth loop of `checkRestoreInvariants`: each live-state restore is absent
from the hot archive, exists in the live state with an equal full entry, and
(for TTL keys) is expired at `ledgerSeq`. -/
def checkRestoredFromLiveEntry (preloadedLiveEntries preloadedArchivedEntries :
    List (LedgerKey × LedgerEntry)) (ledgerSeq : Nat)
    (p : LedgerKey × LedgerEntry) : Option RestoreFailure :=
  if (lookupEntry preloadedArchivedEntries p.1).isSome then
    some (.liveRestoreInArchive p.1)
  else
    match lookupEntry preloadedLiveEntries p.1 with
    | none => some (.liveRestoreNotInLive p.1)
    | some liveEntry =>
      if ¬(liveEntry = p.2) then some (.liveRestoreValueMismatch p.1)
      else if isTTLKey p.1 ∧ isLive p.2 ledgerSeq then
        some (.liveRestoreNotExpired p.1)
      else none

/-- `ArchivedStateConsistency::checkRestoreInvariants`. -/
def checkRestoreInvariants (preloadedLiveEntries preloadedArchivedEntries
    restoredFromArchive restoredFromLiveState : List (LedgerKey × LedgerEntry))
    (ledgerSeq ledgerVer : Nat) : Option RestoreFailure :=
  match firstFailure (checkRestoredFromLivePairing restoredFromLiveState)
      restoredFromLiveState with
  | some f => some f
  | none =>
  match firstFailure (checkRestoredFromArchivePairing restoredFromArchive)
      restoredFromArchive with
  | some f => some f
  | none =>
  match firstFailure
      (checkRestoredFromArchiveEntry preloadedLiveEntries
        preloadedArchivedEntries ledgerVer) restoredFromArchive with
  | some f => some f
  | none =>
    firstFailure
      (checkRestoredFromLiveEntry preloadedLiveEntries
        preloadedArchivedEntries ledgerSeq) restoredFromLiveState

/-- The deltas and snapshots handed to
`ArchivedStateConsistency::checkOnLedgerCommit`.  The hot-archive snapshot
holds the `HOT_ARCHIVE_ARCHIVED` entries (the preload of the source keeps
only those). -/
structure LedgerCommitData where
  ledgerVersion : Nat
  lastClosedLedgerSeq : Nat
  liveSnapshot : List (LedgerKey × LedgerEntry)
  hotArchiveSnapshot : List (LedgerKey × LedgerEntry)
  evictedFromLive : List LedgerEntry
  deletedKeysFromLive : List LedgerKey
  restoredFromArchive : List (LedgerKey × LedgerEntry)
  restoredFromLiveState : List (LedgerKey × LedgerEntry)

/-- The `allKeys` collection of `checkOnLedgerCommit`: every delta key, plus
the TTL key of each persistent delta key. -/
def collectCommitKeys (d : LedgerCommitData) : List LedgerKey :=
  (d.evictedFromLive.map (fun e =>
    if isPersistentEntry e.key then [e.key, getTTLKeyOfEntry e] else [e.key])).flatten
  ++ (d.deletedKeysFromLive.map (fun k =>
    if isPersistentEntry k then [k, getTTLKey k] else [k])).flatten
  ++ (d.restoredFromArchive.map (fun p =>
    if isPersistentEntry p.1 then [p.1, getTTLKeyOfEntry p.2] else [p.1])).flatten
  ++ (d.restoredFromLiveState.map (fun p =>
    if isPersistentEntry p.1 then [p.1, getTTLKeyOfEntry p.2] else [p.1])).flatten

/-- The preload of `checkOnLedgerCommit`: `loadKeys` over a snapshot keyed by
the requested keys that are present. -/
def preloadEntries (snapshot : List (LedgerKey × LedgerEntry))
    (keys : List LedgerKey) : List (LedgerKey × LedgerEntry) :=
  keys.filterMap (fun k => (lookupEntry snapshot k).map (fun e => (k, e)))

/-- `ArchivedStateConsistency::checkOnLedgerCommit`: skip entirely before the
first protocol supporting persistent eviction, otherwise preload and run the
eviction and restoration checks; `none` is the empty-string success. -/
def checkOnLedgerCommit (d : LedgerCommitData) :
    Option (Option EvictionFailure × Option RestoreFailure) :=
  if protocolVersionIsBefore d.ledgerVersion
      FIRST_PROTOCOL_SUPPORTING_PERSISTENT_EVICTION then none
  else
    let ledgerSeq := d.lastClosedLedgerSeq + 1
    let allKeys := collectCommitKeys d
    let preloadedLiveEntries := preloadEntries d.liveSnapshot allKeys
    let preloadedArchivedEntries := preloadEntries d.hotArchiveSnapshot allKeys
    let evictionRes := checkEvictionInvariants preloadedLiveEntries
      preloadedArchivedEntries d.deletedKeysFromLive d.evictedFromLive
      ledgerSeq d.ledgerVersion
    let restoreRes := checkRestoreInvariants preloadedLiveEntries
      preloadedArchivedEntries d.restoredFromArchive d.restoredFromLiveState
      ledgerSeq d.ledgerVersion
    match evictionRes, restoreRes with
    | none, none => none
    | er, rr => some (er, rr)

/-- The two-iterator disjointness walk of `ArchivedStateConsistency::start`
over the complete (canonically ordered) archived and live states: reports the
first key present in both. -/
def startScan : List (LedgerKey × LedgerEntry) →
    List (LedgerKey × LedgerEntry) → Option LedgerKey
  | [], _ => none
  | _ :: _, [] => none
  | (ka, ea) :: restA, (kl, el) :: restL =>
    if keyLt ka kl then startScan restA ((kl, el) :: restL)
    else if keyLt kl ka then startScan ((ka, ea) :: restA) restL
    else some ka
termination_by a l => a.length + l.length

/-- `ArchivedStateConsistency::start`: the one-shot startup scan; a no-op
(success) before the first protocol supporting persistent eviction. -/
def archivedStateConsistencyStart (protocolVersion : Nat)
    (archived live : List (LedgerKey × LedgerEntry)) : Option LedgerKey :=
  if protocolVersionIsBefore protocolVersion
      FIRST_PROTOCOL_SUPPORTING_PERSISTENT_EVICTION then none
  else startScan archived live

end StellarCore

namespace StellarCore

/-! ## Shared Soroban operation context

`SorobanNetworkConfig`, the declared `SorobanResources` and the footprint, as
consumed by InvokeHostFunctionOpFrame.cpp and RestoreFootprintOpFrame.cpp.
-/

/-- The network-config limits read by the two Soroban op frames. -/
structure SorobanConfig where
  minPersistentTTL : Nat
  txMemoryLimit : Nat
  txMaxContractEventsSizeBytes : Nat
  maxContractSizeBytes : Nat
  maxContractDataEntrySizeBytes : Nat
deriving DecidableEq, Repr

/-- The declared footprint of a Soroban operation. -/
structure LedgerFootprint where
  readOnly : List LedgerKey
  readWrite : List LedgerKey
deriving DecidableEq, Repr

/-- The declared per-operation `SorobanResources`. -/
structure SorobanResources where
  instructions : Nat
  diskReadBytes : Nat
  writeBytes : Nat
  footprint : LedgerFootprint
deriving DecidableEq, Repr

/-- Modelled from the spec: `validate_contract_ledger_entry` rejects oversize
code/data entries against the network config (its definition lives in
transactions/TransactionUtils.cpp, which is not among the sources); classic
entries always pass. -/
def validateContractLedgerEntry (cfg : SorobanConfig) (lk : LedgerKey)
    (entrySize : Nat) : Bool :=
  match lk with
  | .contractCode _ => entrySize ≤ cfg.maxContractSizeBytes
  | .contractData _ _ _ => entrySize ≤ cfg.maxContractDataEntrySizeBytes
  | _ => true

/-- The diagnostic events pushed on the paths this development covers. -/
inductive DiagnosticEvent
  | archivedContractCode (hash : Nat)
  | archivedContractData (contract key : Nat)
  | exceededReadByteLimit (value limit : Nat)
  | exceededWriteByteLimit (value limit : Nat)
  | exceededEventSizeLimit (value limit : Nat)
  | exceededInsnLimit (value limit : Nat)
  | exceededMemLimit (value limit : Nat)
  | invalidEntrySize (k : LedgerKey)
deriving DecidableEq, Repr

/-- One restoration performed through the overlay, as sampled for the commit
deltas: the restored entry, its fresh `liveUntil`, and whether it came from
the hot archive (`restoreFromHotArchive`) or from the live bucket list
(`restoreFromLiveBucketList`). -/
structure RestoreAction where
  fromHotArchive : Bool
  entry : LedgerEntry
  liveUntil : Nat
deriving DecidableEq, Repr

/-- The live overlay and the hot-archive snapshot, together with the restore
actions recorded against them. -/
structure LedgerStores where
  live : List (LedgerKey × LedgerEntry)
  hotArchive : List (LedgerKey × LedgerEntry)
  restores : List RestoreAction
deriving DecidableEq, Repr

/-- Insert an entry and its fresh TTL entry into the live overlay. -/
def restoreEntryIntoLive (live : List (LedgerKey × LedgerEntry))
    (e : LedgerEntry) (ledgerSeq liveUntil : Nat) :
    List (LedgerKey × LedgerEntry) :=
  insertEntry (insertEntry live e) (mkTTLEntry e.key ledgerSeq liveUntil)

/-- Modelled from the spec: `LedgerTxn::restoreFromHotArchive(e, live_until)`
re-inserts the entry into the live overlay, writes its TTL, and deletes the
hot-archive record (the `LedgerTxn` implementation is not among the
sources). -/
def restoreFromHotArchive (st : LedgerStores) (e : LedgerEntry)
    (ledgerSeq liveUntil : Nat) : LedgerStores :=
  { live := restoreEntryIntoLive st.live e ledgerSeq liveUntil,
    hotArchive := removeKey st.hotArchive e.key,
    restores := st.restores ++ [⟨true, e, liveUntil⟩] }

/-- Modelled from the spec: `LedgerTxn::restoreFromLiveBucketList(e,
live_until)` re-inserts the entry into the live overlay and writes its TTL. -/
def restoreFromLiveBucketList (st : LedgerStores) (e : LedgerEntry)
    (ledgerSeq liveUntil : Nat) : LedgerStores :=
  { live := restoreEntryIntoLive st.live e ledgerSeq liveUntil,
    hotArchive := st.hotArchive,
    restores := st.restores ++ [⟨false, e, liveUntil⟩] }

/-! ## InvokeHostFunctionOpFrame (transactions/InvokeHostFunctionOpFrame.cpp) -/

/-- `InvokeHostFunctionResultCode` (the codes assigned by `ApplyHelper`). -/
inductive InvokeHostFunctionResultCode
  | success
  | malformed
  | trapped
  | resourceLimitExceeded
  | entryArchived
  | insufficientRefundableFee
deriving DecidableEq, Repr

/-- The `HostFunctionMetrics` counters that participate in control flow (the
per-category splits and max observations are telemetry only and the metrics
registry shape is out of the spec's scope). -/
structure HostFunctionMetrics where
  readEntry : Nat
  readKeyByte : Nat
  ledgerReadByte : Nat
  writeEntry : Nat
  ledgerWriteByte : Nat
  emitEvent : Nat
  emitEventByte : Nat
deriving DecidableEq, Repr

/-- `HostFunctionMetrics::noteDiskReadEntry`. -/
def noteDiskReadEntry (m : HostFunctionMetrics) (keySize entrySize : Nat) :
    HostFunctionMetrics :=
  { m with readEntry := m.readEntry + 1, readKeyByte := m.readKeyByte + keySize,
           ledgerReadByte := m.ledgerReadByte + entrySize }

/-- The mutable state threaded through `ApplyHelper`'s footprint assembly:
the ledger stores, the metrics, the diagnostic event buffer and the two Cxx
buffers handed to the sandbox (TTL buffers carry the `liveUntilLedgerSeq`
payload, `none` standing for the empty buffer of TTL-less entries). -/
structure InvokeApplyState where
  stores : LedgerStores
  metrics : HostFunctionMetrics
  diagnostics : List DiagnosticEvent
  ledgerEntryBufs : List LedgerEntry
  ttlEntryBufs : List (Option Nat)
deriving DecidableEq, Repr

/-- Result of one step of the footprint assembly: proceed, fail the operation
with a typed code, or hit a `releaseAssertOrThrow` (a fatal internal bug). -/
inductive InvokeStepResult
  | ok (st : InvokeApplyState)
  | fail (code : InvokeHostFunctionResultCode) (st : InvokeApplyState)
  | abort
deriving DecidableEq, Repr

/-- The `ApplyHelper` context: header fields, config, declared resources, the
autorestore bitmap built by the constructor, and the abstract XDR key size. -/
structure ApplyHelperCtx where
  ledgerSeq : Nat
  ledgerVersion : Nat
  sorobanConfig : SorobanConfig
  resources : SorobanResources
  autorestoredEntries : List Bool
  keySizeBytes : LedgerKey → Nat

/-- `ApplyHelper::checkIfReadWriteEntryIsMarkedForAutorestore`: false when the
bitmap is empty, otherwise `mAutorestoredEntries.at(index)` (the bitmap is
sized to the read-write footprint, so the index is always in bounds). -/
def checkIfReadWriteEntryIsMarkedForAutorestore (autorestoredEntries : List Bool)
    (index : Nat) : Bool :=
  if autorestoredEntries.isEmpty then false
  else autorestoredEntries.getD index false

/-- The diagnostic `ApplyHelper::handleArchivedEntry` pushes before failing
with `ENTRY_ARCHIVED` (contract-code and contract-data keys each get their
own message; other key types push nothing). -/
def archivedKeyDiagnostic : LedgerKey → List DiagnosticEvent
  | .contractCode h => [.archivedContractCode h]
  | .contractData c k _ => [.archivedContractData c k]
  | _ => []

/-- `ApplyHelper::meterDiskReadResource`: note the disk read in the metrics,
then fail with `RESOURCE_LIMIT_EXCEEDED` (after a budget diagnostic) when the
accumulated `mLedgerReadByte` exceeds the declared `diskReadBytes`. -/
def meterDiskReadResource (ctx : ApplyHelperCtx) (st : InvokeApplyState)
    (keySize entrySize : Nat) : InvokeStepResult :=
  let m := noteDiskReadEntry st.metrics keySize entrySize
  let st1 := { st with metrics := m }
  if ctx.resources.diskReadBytes < m.ledgerReadByte then
    .fail .resourceLimitExceeded
      { st1 with diagnostics := st1.diagnostics ++
          [.exceededReadByteLimit m.ledgerReadByte ctx.resources.diskReadBytes] }
  else .ok st1

/-- `ApplyHelper::handleArchivedEntry`: called on every archived key in the
footprint.  In the autorestore case (read-write key, protocol supporting
persistent eviction, marked in the bitmap) the entry is validated, its disk
read metered, the entry restored through the overlay and fed to the sandbox
buffers as if live; otherwise the operation fails with `ENTRY_ARCHIVED` after
a diagnostic describing the key. -/
def handleArchivedEntry (ctx : ApplyHelperCtx) (st : InvokeApplyState)
    (lk : LedgerKey) (le : LedgerEntry) (isReadOnly : Bool)
    (restoredLiveUntilLedger : Nat) (isHotArchiveEntry : Bool) (index : Nat) :
    InvokeStepResult :=
  if isReadOnly = false ∧
      protocolVersionStartsFrom ctx.ledgerVersion
        FIRST_PROTOCOL_SUPPORTING_PERSISTENT_EVICTION = true ∧
      checkIfReadWriteEntryIsMarkedForAutorestore ctx.autorestoredEntries
        index = true then
    if ¬(validateContractLedgerEntry ctx.sorobanConfig lk
        le.entrySizeBytes = true) then
      .fail .resourceLimitExceeded
        { st with diagnostics := st.diagnostics ++ [.invalidEntrySize lk] }
    else
      match meterDiskReadResource ctx st (ctx.keySizeBytes lk)
          le.entrySizeBytes with
      | .ok st1 =>
        let stores := if isHotArchiveEntry then
            restoreFromHotArchive st1.stores le ctx.ledgerSeq
              restoredLiveUntilLedger
          else
            restoreFromLiveBucketList st1.stores le ctx.ledgerSeq
              restoredLiveUntilLedger
        .ok { st1 with
          stores := stores,
          ledgerEntryBufs := st1.ledgerEntryBufs ++ [le],
          ttlEntryBufs := st1.ttlEntryBufs ++ [some restoredLiveUntilLedger] }
      | r => r
  else
    .fail .entryArchived
      { st with diagnostics := st.diagnostics ++ archivedKeyDiagnostic lk }

/-- The load-and-buffer phase of the `addReads` loop body (source lines after
the TTL handling): load live or classic entries into the sandbox buffers;
`none` stands for the `releaseAssertOrThrow(!ttlEntry)` abort on a Soroban
key whose TTL exists but whose entry does not. -/
def addReadsLoadPhase (st : InvokeApplyState) (lk : LedgerKey)
    (ttlEntry : Option Nat) (sorobanEntryLive : Bool) :
    Option (InvokeApplyState × Nat) :=
  if ¬(isSorobanEntry lk = true) ∨ sorobanEntryLive = true then
    match lookupEntry st.stores.live lk with
    | some ltxe =>
      some ({ st with
        ledgerEntryBufs := st.ledgerEntryBufs ++ [ltxe],
        ttlEntryBufs := st.ttlEntryBufs ++ [ttlEntry] },
        ltxe.entrySizeBytes)
    | none =>
      if isSorobanEntry lk = true ∧ ttlEntry.isSome then none
      else some (st, 0)
  else some (st, 0)

/-- The validation and metering tail of the `addReads` loop body. -/
def addReadsValidateAndMeter (ctx : ApplyHelperCtx) (st1 : InvokeApplyState)
    (lk : LedgerKey) (entrySize : Nat) : InvokeStepResult :=
  if ¬(validateContractLedgerEntry ctx.sorobanConfig lk entrySize = true) then
    .fail .resourceLimitExceeded
      { st1 with diagnostics := st1.diagnostics ++ [.invalidEntrySize lk] }
  else if ¬(isSorobanEntry lk = true) ∨
      protocolVersionIsBefore ctx.ledgerVersion
        AUTO_RESTORE_PROTOCOL_VERSION = true then
    meterDiskReadResource ctx st1 (ctx.keySizeBytes lk) entrySize
  else if isSorobanEntry lk = true then
    .ok { st1 with metrics :=
      { st1.metrics with readEntry := st1.metrics.readEntry + 1 } }
  else .ok st1

/-- The load phase followed by validation and metering; the `none` load
result is the `releaseAssertOrThrow(!ttlEntry)` abort. -/
def addReadsTail (ctx : ApplyHelperCtx) (st : InvokeApplyState)
    (lk : LedgerKey) (ttlEntry : Option Nat) (sorobanEntryLive : Bool) :
    InvokeStepResult :=
  match addReadsLoadPhase st lk ttlEntry sorobanEntryLive with
  | none => .abort
  | some (st1, entrySize) => addReadsValidateAndMeter ctx st1 lk entrySize

/-- One iteration of the `addReads` loop: TTL handling for Soroban entries
(live, expired-persistent, expired-temporary, or new-key hot-archive lookup),
then the shared tail. -/
def addReadsStep (ctx : ApplyHelperCtx) (st : InvokeApplyState)
    (isReadOnly : Bool) (restoredLiveUntilLedger : Nat) (lk : LedgerKey)
    (index : Nat) : InvokeStepResult :=
  if isSorobanEntry lk then
    match lookupEntry st.stores.live (getTTLKey lk) with
    | some ttlEntryOp =>
      if ¬(isLive ttlEntryOp ctx.ledgerSeq = true) then
        if ¬(isTemporaryEntry lk = true) then
          match lookupEntry st.stores.live lk with
          | none => .abort
          | some le =>
            handleArchivedEntry ctx st lk le isReadOnly
              restoredLiveUntilLedger false index
        else
          addReadsTail ctx st lk none false
      else
        addReadsTail ctx st lk (some ttlEntryOp.data) true
    | none =>
      if isPersistentEntry lk = true ∧
          protocolVersionStartsFrom ctx.ledgerVersion
            FIRST_PROTOCOL_SUPPORTING_PERSISTENT_EVICTION = true then
        match lookupEntry st.stores.hotArchive lk with
        | some archiveEntry =>
          handleArchivedEntry ctx st lk archiveEntry isReadOnly
            restoredLiveUntilLedger true index
        | none => addReadsTail ctx st lk none false
      else addReadsTail ctx st lk none false
  else addReadsTail ctx st lk none false

/-- The `addReads` loop over one footprint vector, indexed. -/
def addReadsLoop (ctx : ApplyHelperCtx) (isReadOnly : Bool)
    (restoredLiveUntilLedger : Nat) :
    List LedgerKey → Nat → InvokeApplyState → InvokeStepResult
  | [], _, st => .ok st
  | lk :: rest, index, st =>
    match addReadsStep ctx st isReadOnly restoredLiveUntilLedger lk index with
    | .ok st1 =>
      addReadsLoop ctx isReadOnly restoredLiveUntilLedger rest (index + 1) st1
    | r => r

/-- `ApplyHelper::addReads`: computes `restoredLiveUntilLedger` as
`ledgerSeq + minPersistentTTL - 1` and walks the keys in declared order. -/
def addReads (ctx : ApplyHelperCtx) (st : InvokeApplyState)
    (keys : List LedgerKey) (isReadOnly : Bool) : InvokeStepResult :=
  let restoredLiveUntilLedger :=
    ctx.ledgerSeq + ctx.sorobanConfig.minPersistentTTL - 1
  addReadsLoop ctx isReadOnly restoredLiveUntilLedger keys 0 st

/-- The sandbox output fields consumed by the post-execution logic of
`ApplyHelper::apply`. -/
structure InvokeHostFunctionOutput where
  success : Bool
  isInternalError : Bool
  cpuInsns : Nat
  memBytes : Nat
deriving DecidableEq, Repr

/-- The post-execution failure mapping of `ApplyHelper::apply` (the
`if (!out.success)` block).  `none` means the sandbox succeeded and apply
proceeds; an internal error propagates as a thrown `std::runtime_error`
(`Except.error`); otherwise the first matching branch in source order fixes
the typed result code and its budget diagnostic. -/
def invokeResultMapping (instructions txMemoryLimit : Nat)
    (out : InvokeHostFunctionOutput) :
    Option (Except Unit (InvokeHostFunctionResultCode × List DiagnosticEvent)) :=
  if out.success then none
  else some (
    if out.isInternalError then .error ()
    else if instructions < out.cpuInsns then
      .ok (.resourceLimitExceeded,
        [.exceededInsnLimit out.cpuInsns instructions])
    else if txMemoryLimit < out.memBytes then
      .ok (.resourceLimitExceeded,
        [.exceededMemLimit out.memBytes txMemoryLimit])
    else .ok (.trapped, []))

/-- The event-ingestion loop of `ApplyHelper::apply`: accumulate
`mEmitEventByte` over the sandbox contract events (by serialized size) and
fail with `RESOURCE_LIMIT_EXCEEDED` the first time the cumulative size
exceeds `txMaxContractEventsSizeBytes`. -/
def ingestContractEvents (txMaxContractEventsSizeBytes : Nat) :
    List Nat → Nat → Except InvokeHostFunctionResultCode Nat
  | [], emitEventByte => .ok emitEventByte
  | eventSize :: rest, emitEventByte =>
    let b := emitEventByte + eventSize
    if txMaxContractEventsSizeBytes < b then .error .resourceLimitExceeded
    else ingestContractEvents txMaxContractEventsSizeBytes rest b

/-- Event metering of `ApplyHelper::apply`: ingest the events starting from a
fresh (zero) counter, then add the return value's size and check the limit a
second time; the final counter is what the refundable-fee charge sees. -/
def meterEventsAndReturnValue (txMaxContractEventsSizeBytes : Nat)
    (eventSizes : List Nat) (resultValueSize : Nat) :
    Except InvokeHostFunctionResultCode Nat :=
  match ingestContractEvents txMaxContractEventsSizeBytes eventSizes 0 with
  | .error c => .error c
  | .ok b =>
    let b2 := b + resultValueSize
    if txMaxContractEventsSizeBytes < b2 then .error .resourceLimitExceeded
    else .ok b2

end StellarCore

namespace StellarCore

/-! ## RestoreFootprintOpFrame (transactions/RestoreFootprintOpFrame.cpp) -/

/-- `RestoreFootprintResultCode`. -/
inductive RestoreFootprintResultCode
  | success
  | malformed
  | resourceLimitExceeded
  | insufficientRefundableFee
deriving DecidableEq, Repr

/-- `CxxLedgerEntryRentChange` as populated by the restore op. -/
structure CxxLedgerEntryRentChange where
  isPersistent : Bool
  oldSizeBytes : Nat
  oldLiveUntilLedger : Nat
  newSizeBytes : Nat
  newLiveUntilLedger : Nat
deriving DecidableEq, Repr

/-- The context of `RestoreFootprintOpFrame::doApply`: header fields, config,
declared resources, and the three external collaborators (the rust bridge's
`contract_code_memory_size_for_rent` and `compute_rent_fee`, and the
refundable fee tracker's `consumeRefundableSorobanResources`), treated as
abstract functions per the spec's external-interface section. -/
structure RestoreApplyCtx where
  ledgerSeq : Nat
  ledgerVersion : Nat
  sorobanConfig : SorobanConfig
  diskReadBytes : Nat
  writeBytes : Nat
  contractCodeMemSizeForRent : LedgerEntry → Nat
  computeRentFee : List CxxLedgerEntryRentChange → Int
  consumeRefundableOk : Nat → Int → Bool

/-- State threaded through the restore loop: the stores, the two
`RestoreFootprintMetrics` counters, the collected rent changes and the
diagnostic buffer. -/
structure RestoreApplyState where
  stores : LedgerStores
  ledgerReadByte : Nat
  ledgerWriteByte : Nat
  rentChanges : List CxxLedgerEntryRentChange
  diagnostics : List DiagnosticEvent
deriving DecidableEq, Repr

/-- Result of one iteration of the restore loop. -/
inductive RestoreStepResult
  | ok (st : RestoreApplyState)
  | fail (code : RestoreFootprintResultCode) (st : RestoreApplyState)
  | abort
deriving DecidableEq, Repr

/-- `ProtocolVersion::V_23`. -/
def PROTOCOL_V23 : Nat := 23

/-- The metering/rent/write part of the restore loop body, reached once the
key is known to need restoration; `hotArchiveEntry` is the hot-archive record
when the restore comes from the archive, `none` when it comes from the
expired live entry. -/
def restoreFootprintProcess (ctx : RestoreApplyCtx)
    (restoredLiveUntilLedger : Nat) (st : RestoreApplyState) (lk : LedgerKey)
    (hotArchiveEntry : Option LedgerEntry) : RestoreStepResult :=
  let entryOp : Option LedgerEntry :=
    match hotArchiveEntry with
    | some he => some he
    | none => lookupEntry st.stores.live lk
  match entryOp with
  | none => .abort
  | some entry =>
    let entrySize := entry.entrySizeBytes
    let readByte := st.ledgerReadByte + entrySize
    if ctx.diskReadBytes < readByte then
      .fail .resourceLimitExceeded
        { st with
          ledgerReadByte := readByte,
          diagnostics := st.diagnostics ++
            [.exceededReadByteLimit readByte ctx.diskReadBytes] }
    else
      let writeByte := st.ledgerWriteByte + entrySize
      if ¬(validateContractLedgerEntry ctx.sorobanConfig lk entrySize = true) then
        .fail .resourceLimitExceeded
          { st with
            ledgerReadByte := readByte,
            ledgerWriteByte := writeByte,
            diagnostics := st.diagnostics ++ [.invalidEntrySize lk] }
      else if ctx.writeBytes < writeByte then
        .fail .resourceLimitExceeded
          { st with
            ledgerReadByte := readByte,
            ledgerWriteByte := writeByte,
            diagnostics := st.diagnostics ++
              [.exceededWriteByteLimit writeByte ctx.writeBytes] }
      else
        let entrySizeForRent :=
          if protocolVersionStartsFrom ctx.ledgerVersion PROTOCOL_V23 = true ∧
              isContractCodeEntry lk = true then
            ctx.contractCodeMemSizeForRent entry
          else entrySize
        let rustChange : CxxLedgerEntryRentChange :=
          { isPersistent := true, oldSizeBytes := 0, oldLiveUntilLedger := 0,
            newSizeBytes := entrySizeForRent,
            newLiveUntilLedger := restoredLiveUntilLedger }
        let st1 := { st with
          ledgerReadByte := readByte,
          ledgerWriteByte := writeByte,
          rentChanges := st.rentChanges ++ [rustChange] }
        match hotArchiveEntry with
        | some he =>
          let stores := restoreFromHotArchive st1.stores he ctx.ledgerSeq
            restoredLiveUntilLedger
          .ok { st1 with stores := stores }
        | none =>
          match lookupEntry st1.stores.live lk with
          | none => .abort
          | some newest =>
            let stores := restoreFromLiveBucketList st1.stores newest
              ctx.ledgerSeq restoredLiveUntilLedger
            .ok { st1 with stores := stores }

/-- One iteration of the `RestoreFootprintOpFrame::doApply` loop: check the
live TTL first (present-and-live keys are skipped); a missing TTL consults
the hot archive from protocol 23 on (absent entries are skipped); anything
else proceeds to metering and restoration. -/
def restoreFootprintStep (ctx : RestoreApplyCtx)
    (restoredLiveUntilLedger : Nat) (st : RestoreApplyState) (lk : LedgerKey) :
    RestoreStepResult :=
  match lookupEntry st.stores.live (getTTLKey lk) with
  | none =>
    if protocolVersionStartsFrom ctx.ledgerVersion
        FIRST_PROTOCOL_SUPPORTING_PERSISTENT_EVICTION = true then
      match lookupEntry st.stores.hotArchive lk with
      | none => .ok st
      | some hotArchiveEntry =>
        restoreFootprintProcess ctx restoredLiveUntilLedger st lk
          (some hotArchiveEntry)
    else .ok st
  | some constTTLLtxe =>
    if isLive constTTLLtxe ctx.ledgerSeq then .ok st
    else restoreFootprintProcess ctx restoredLiveUntilLedger st lk none

/-- The restore loop over the read-write footprint, in declared order. -/
def restoreFootprintLoop (ctx : RestoreApplyCtx)
    (restoredLiveUntilLedger : Nat) :
    List LedgerKey → RestoreApplyState → RestoreStepResult
  | [], st => .ok st
  | lk :: rest, st =>
    match restoreFootprintStep ctx restoredLiveUntilLedger st lk with
    | .ok st1 => restoreFootprintLoop ctx restoredLiveUntilLedger rest st1
    | r => r

/-- The outcome of `RestoreFootprintOpFrame::doApply`. -/
inductive RestoreApplyResult
  | done (code : RestoreFootprintResultCode) (st : RestoreApplyState)
  | abort
deriving DecidableEq, Repr

/-- `RestoreFootprintOpFrame::doApply`: extend the TTL on every restored
entry to `ledgerSeq + minPersistentTTL - 1`, then charge the rent fee
computed from the collected rent changes against the refundable fee. -/
def restoreFootprintDoApply (ctx : RestoreApplyCtx)
    (footprint : LedgerFootprint) (st : RestoreApplyState) :
    RestoreApplyResult :=
  let restoredLiveUntilLedger :=
    ctx.ledgerSeq + ctx.sorobanConfig.minPersistentTTL - 1
  match restoreFootprintLoop ctx restoredLiveUntilLedger footprint.readWrite
      st with
  | .abort => .abort
  | .fail c st1 => .done c st1
  | .ok st1 =>
    let rentFee := ctx.computeRentFee st1.rentChanges
    if ¬(ctx.consumeRefundableOk 0 rentFee = true) then
      .done .insufficientRefundableFee st1
    else .done .success st1

/-- The read-write loop of `RestoreFootprintOpFrame::doCheckValidForSoroban`:
the first non-persistent key makes the operation malformed. -/
def restoreCheckReadWriteKeys :
    List LedgerKey → Except RestoreFootprintResultCode Unit
  | [] => .ok ()
  | lk :: rest =>
    if isPersistentEntry lk then restoreCheckReadWriteKeys rest
    else .error .malformed

/-- `RestoreFootprintOpFrame::doCheckValidForSoroban`: a non-empty read-only
footprint or a non-persistent read-write key is malformed. -/
def restoreFootprintDoCheckValidForSoroban (footprint : LedgerFootprint) :
    Except RestoreFootprintResultCode Unit :=
  if ¬footprint.readOnly.isEmpty then .error .malformed
  else restoreCheckReadWriteKeys footprint.readWrite

/-! ## InvariantManagerImpl::enableInvariant
(invariant/InvariantManagerImpl.cpp) -/

/-- The exceptions `enableInvariant` can throw. -/
inductive EnableInvariantError
  | emptyPattern
  | invalidRegex
  | alreadyEnabled (name : String)
  | noMatch
deriving DecidableEq, Repr

/-- The loop of `InvariantManagerImpl::enableInvariant` over the registered
invariants (a name-keyed ordered map, modelled by its name list in iteration
order): each matched name not yet enabled is appended to the enabled list and
sets `enabledSome`; a matched name already enabled throws. -/
def enableInvariantLoop (matchName : String → Bool) :
    List String → List String → Bool →
    Except EnableInvariantError (List String × Bool)
  | [], enabled, enabledSome => .ok (enabled, enabledSome)
  | name :: rest, enabled, enabledSome =>
    if matchName name then
      if enabled.contains name then .error (.alreadyEnabled name)
      else enableInvariantLoop matchName rest (enabled ++ [name]) true
    else enableInvariantLoop matchName rest enabled enabledSome

/-- `InvariantManagerImpl::enableInvariant`.  `compileRegex` stands for the
`std::regex` construction with the `ECMAScript | icase` flags: it yields
`none` exactly when the constructor throws `std::regex_error`, and otherwise
the predicate `std::regex_match(name, r, match_not_null)` of the compiled
case-insensitive ECMAScript pattern. -/
def enableInvariant (registered enabled : List String) (invPattern : String)
    (compileRegex : String → Option (String → Bool)) :
    Except EnableInvariantError (List String) :=
  if invPattern = "" then .error .emptyPattern
  else
    match compileRegex invPattern with
    | none => .error .invalidRegex
    | some m =>
      match enableInvariantLoop m registered enabled false with
      | .error e => .error e
      | .ok (enabled2, enabledSome) =>
        if enabledSome then .ok enabled2 else .error .noMatch

end StellarCore

namespace StellarCore

/-! ## Claim-level auxiliary definitions and lemmas -/

/-- The number of temporary keys in a deleted-keys delta. -/
def numTempKeys (ks : List LedgerKey) : Nat :=
  (ks.filter (fun k => isTemporaryEntry k)).length

/-- The number of non-temporary (TTL) keys in a deleted-keys delta. -/
def numNonTempKeys (ks : List LedgerKey) : Nat :=
  (ks.filter (fun k => !isTemporaryEntry k)).length

/-- Whether an eviction-check result is the count-identity failure. -/
def reportsCountIdentityFailure : Option EvictionFailure → Bool
  | some (.countMismatch _ _ _) => true
  | _ => false

/-- On the success path, the deleted-keys loop counts exactly the temporary
keys and the non-temporary keys on top of its accumulators. -/
theorem evictionDeletedLoop_ok_counts (preloadedLiveEntries :
    List (LedgerKey × LedgerEntry)) (ledgerSeq : Nat) (ks : List LedgerKey)
    (a b t l : Nat)
    (h : evictionDeletedLoop preloadedLiveEntries ledgerSeq ks a b =
      .ok (t, l)) :
    t = a + numTempKeys ks ∧ l = b + numNonTempKeys ks := by
  induction ks generalizing a b with
  | nil =>
    simp only [evictionDeletedLoop, Except.ok.injEq, Prod.mk.injEq] at h
    simp [numTempKeys, numNonTempKeys, h.1, h.2]
  | cons k ks ih =>
    by_cases hk : isTemporaryEntry k = true
    · simp only [evictionDeletedLoop, hk, if_true] at h
      cases h1 : lookupEntry preloadedLiveEntries k with
      | none => simp [h1] at h
      | some e =>
        cases h2 : lookupEntry preloadedLiveEntries (getTTLKey k) with
        | none => simp [h1, h2] at h
        | some ttlE =>
          simp only [h1, h2] at h
          by_cases h3 : isLive ttlE ledgerSeq = true
          · simp [h3] at h
          · simp only [h3, Bool.false_eq_true, if_false] at h
            obtain ⟨ht, hl⟩ := ih (a + 1) b h
            constructor
            · simp [ht, numTempKeys, List.filter, hk]; omega
            · simp [hl, numNonTempKeys, List.filter, hk]
    · simp only [evictionDeletedLoop, hk, Bool.false_eq_true, if_false] at h
      obtain ⟨ht, hl⟩ := ih a (b + 1) h
      constructor
      · simp [ht, numTempKeys, List.filter, hk]
      · simp [hl, numNonTempKeys, List.filter, hk]; omega

/-- Whether the deleted-keys loop of the eviction checker passes every
temporary-key check. -/
def evictionDeletedLoopPasses (preloadedLiveEntries :
    List (LedgerKey × LedgerEntry)) (ledgerSeq : Nat)
    (deletedKeys : List LedgerKey) : Bool :=
  match evictionDeletedLoop preloadedLiveEntries ledgerSeq deletedKeys 0 0 with
  | .ok _ => true
  | .error _ => false

/-- The per-entry checks on one evicted entry never produce the
count-identity failure. -/
theorem checkEvictedEntry_not_countMismatch (preloadedLiveEntries
    preloadedArchivedEntries : List (LedgerKey × LedgerEntry))
    (ledgerSeq ledgerVers : Nat) (e : LedgerEntry) (f : EvictionFailure)
    (h : checkEvictedEntry preloadedLiveEntries preloadedArchivedEntries
      ledgerSeq ledgerVers e = some f) :
    reportsCountIdentityFailure (some f) = false := by
  simp only [checkEvictedEntry] at h
  by_cases hp : isPersistentEntry e.key = true
  · rw [if_neg (by simp [hp])] at h
    by_cases ha : (lookupEntry preloadedArchivedEntries
        (LedgerEntryKey e)).isSome = true
    · rw [if_pos ha] at h
      have hg : EvictionFailure.evictedAlreadyInArchive (LedgerEntryKey e) =
          f := by simpa using h
      subst hg; rfl
    · rw [if_neg ha] at h
      cases hl : lookupEntry preloadedLiveEntries (LedgerEntryKey e) with
      | none =>
        simp only [hl] at h
        have hg : EvictionFailure.evictedNotInLive (LedgerEntryKey e) = f := by
          simpa using h
        subst hg; rfl
      | some liveEntry =>
        simp only [hl] at h
        cases ht : lookupEntry preloadedLiveEntries (getTTLKeyOfEntry e) with
        | none =>
          simp only [ht] at h
          have hg : EvictionFailure.evictedTTLMissing (LedgerEntryKey e) =
              f := by simpa using h
          subst hg; rfl
        | some ttlEntry =>
          simp only [ht] at h
          by_cases h3 : isLive ttlEntry ledgerSeq = true
          · rw [if_pos h3] at h
            have hg : EvictionFailure.evictedTTLStillLive (LedgerEntryKey e) =
                f := by simpa using h
            subst hg; rfl
          · rw [if_neg h3] at h
            by_cases h4 : protocolVersionStartsFrom ledgerVers
                PROTOCOL_V24 = true ∧ ¬(e = liveEntry)
            · rw [if_pos h4] at h
              have hg : EvictionFailure.outdatedEntryEvicted
                  (LedgerEntryKey e) = f := by simpa using h
              subst hg; rfl
            · rw [if_neg h4] at h
              exact absurd h (by simp)
  · rw [if_pos (by simpa using hp)] at h
    have hg : EvictionFailure.assertNonPersistentEvicted e.key = f := by
      simpa using h
    subst hg; rfl

/-- The evicted-entries loop never produces the count-identity failure. -/
theorem firstFailure_checkEvictedEntry_not_countMismatch
    (preloadedLiveEntries preloadedArchivedEntries :
      List (LedgerKey × LedgerEntry)) (ledgerSeq ledgerVers : Nat)
    (archivedEntries : List LedgerEntry) (f : EvictionFailure)
    (h : firstFailure (checkEvictedEntry preloadedLiveEntries
      preloadedArchivedEntries ledgerSeq ledgerVers) archivedEntries =
        some f) :
    reportsCountIdentityFailure (some f) = false := by
  induction archivedEntries with
  | nil => simp [firstFailure] at h
  | cons e es ih =>
    unfold firstFailure at h
    cases hc : checkEvictedEntry preloadedLiveEntries
        preloadedArchivedEntries ledgerSeq ledgerVers e with
    | some g =>
      rw [hc] at h
      have hg : g = f := by simpa using h
      subst hg
      exact checkEvictedEntry_not_countMismatch preloadedLiveEntries
        preloadedArchivedEntries ledgerSeq ledgerVers e g hc
    | none =>
      rw [hc] at h
      exact ih (by simpa using h)

/-- The deleted-keys loop never errors with the count-identity failure. -/
theorem evictionDeletedLoop_error_not_countMismatch (preloadedLiveEntries :
    List (LedgerKey × LedgerEntry)) (ledgerSeq : Nat) (ks : List LedgerKey)
    (a b : Nat) (f : EvictionFailure)
    (h : evictionDeletedLoop preloadedLiveEntries ledgerSeq ks a b =
      .error f) :
    reportsCountIdentityFailure (some f) = false := by
  induction ks generalizing a b with
  | nil => simp [evictionDeletedLoop] at h
  | cons k ks ih =>
    by_cases hk : isTemporaryEntry k = true
    · simp only [evictionDeletedLoop, hk, if_true] at h
      cases h1 : lookupEntry preloadedLiveEntries k with
      | none =>
        simp only [h1] at h
        have hg : EvictionFailure.tempKeyNotInLive k = f := by simpa using h
        subst hg
        simp [reportsCountIdentityFailure]
      | some e =>
        simp only [h1] at h
        cases h2 : lookupEntry preloadedLiveEntries (getTTLKey k) with
        | none =>
          simp only [h2] at h
          have hg : EvictionFailure.tempTTLMissing k = f := by simpa using h
          subst hg
          simp [reportsCountIdentityFailure]
        | some ttlE =>
          simp only [h2] at h
          by_cases h3 : isLive ttlE ledgerSeq = true
          · simp only [h3, if_true] at h
            have hg : EvictionFailure.tempTTLStillLive k = f := by
              simpa using h
            subst hg
            simp [reportsCountIdentityFailure]
          · simp only [h3, Bool.false_eq_true, if_false] at h
            exact ih (a + 1) b h
    · simp only [evictionDeletedLoop, hk, Bool.false_eq_true, if_false] at h
      exact ih a (b + 1) h

/-- C7 (amended): the eviction checker reports the count-identity failure if
and only if no per-entry eviction check fails first (the evicted-entries loop
and the deleted-keys loop both pass) and the number of temporary deletions
plus the number of archivals differs from the number of TTL deletions. -/
theorem checkEvictionInvariants_count_identity (preloadedLiveEntries
    preloadedArchivedEntries : List (LedgerKey × LedgerEntry))
    (deletedKeys : List LedgerKey) (archivedEntries : List LedgerEntry)
    (ledgerSeq ledgerVers : Nat) :
    reportsCountIdentityFailure
        (checkEvictionInvariants preloadedLiveEntries preloadedArchivedEntries
          deletedKeys archivedEntries ledgerSeq ledgerVers) = true ↔
      (firstFailure (checkEvictedEntry preloadedLiveEntries
          preloadedArchivedEntries ledgerSeq ledgerVers) archivedEntries =
          none ∧
        evictionDeletedLoopPasses preloadedLiveEntries ledgerSeq
          deletedKeys = true) ∧
      numTempKeys deletedKeys + archivedEntries.length ≠
        numNonTempKeys deletedKeys := by
  by_cases he : deletedKeys.isEmpty ∧ archivedEntries.isEmpty
  · have hd : deletedKeys = [] := by
      cases deletedKeys with
      | nil => rfl
      | cons x xs => simp [List.isEmpty] at he
    have ha : archivedEntries = [] := by
      cases archivedEntries with
      | nil => rfl
      | cons x xs => simp [List.isEmpty] at he
    subst hd; subst ha
    simp [checkEvictionInvariants, reportsCountIdentityFailure, numTempKeys,
      numNonTempKeys, firstFailure, evictionDeletedLoopPasses,
      evictionDeletedLoop]
  · simp only [checkEvictionInvariants, if_neg he]
    cases h1 : firstFailure (checkEvictedEntry preloadedLiveEntries
        preloadedArchivedEntries ledgerSeq ledgerVers) archivedEntries with
    | some f =>
      have hf := firstFailure_checkEvictedEntry_not_countMismatch
        preloadedLiveEntries preloadedArchivedEntries ledgerSeq ledgerVers
        archivedEntries f h1
      simp [h1, hf]
    | none =>
      cases h2 : evictionDeletedLoop preloadedLiveEntries ledgerSeq
          deletedKeys 0 0 with
      | error f =>
        have hf := evictionDeletedLoop_error_not_countMismatch
          preloadedLiveEntries ledgerSeq deletedKeys 0 0 f h2
        simp [h1, h2, hf, evictionDeletedLoopPasses]
      | ok p =>
        obtain ⟨t, l⟩ := p
        obtain ⟨ht, hl⟩ := evictionDeletedLoop_ok_counts preloadedLiveEntries
          ledgerSeq deletedKeys 0 0 t l h2
        by_cases hc : t + archivedEntries.length = l
        · simp [h1, h2, hc, reportsCountIdentityFailure,
            evictionDeletedLoopPasses]
          omega
        · simp [h1, h2, hc, reportsCountIdentityFailure,
            evictionDeletedLoopPasses]
          omega

/-- C7 (counterexample): the claim's "if" direction fails as stated: for a
deleted temporary key missing from the live state the counts mismatch
(1 temporary + 0 archivals ≠ 0 TTLs), yet the checker reports the
missing-entry failure, not the count-identity failure. -/
theorem checkEvictionInvariants_count_identity_counterexample :
    numTempKeys [LedgerKey.contractData 1 0 .temporary] +
        ([] : List LedgerEntry).length ≠
      numNonTempKeys [LedgerKey.contractData 1 0 .temporary] ∧
    checkEvictionInvariants [] [] [LedgerKey.contractData 1 0 .temporary] []
        10 24 =
      some (.tempKeyNotInLive (LedgerKey.contractData 1 0 .temporary)) ∧
    reportsCountIdentityFailure
      (checkEvictionInvariants [] [] [LedgerKey.contractData 1 0 .temporary]
        [] 10 24) = false := by
  refine ⟨by decide, by decide, by decide⟩

/-- C10: before the first protocol supporting persistent eviction the
ArchivedStateConsistency invariant is a no-op: the startup scan and the
per-commit check both succeed immediately, whatever the snapshots and deltas
contain. -/
theorem archivedStateConsistency_noop_before_persistent_eviction
    (protocolVersion : Nat) (archived live : List (LedgerKey × LedgerEntry))
    (d : LedgerCommitData)
    (h : protocolVersion < FIRST_PROTOCOL_SUPPORTING_PERSISTENT_EVICTION)
    (hd : d.ledgerVersion < FIRST_PROTOCOL_SUPPORTING_PERSISTENT_EVICTION) :
    archivedStateConsistencyStart protocolVersion archived live = none ∧
    checkOnLedgerCommit d = none := by
  constructor
  · simp [archivedStateConsistencyStart, protocolVersionIsBefore, h]
  · simp [checkOnLedgerCommit, protocolVersionIsBefore, hd]

/-- C10 (witness): at protocol 22 both entry points succeed on a state that
would otherwise fail every check (a key shared by both stores, a bogus
restore map). -/
theorem archivedStateConsistency_noop_witness :
    (22 < FIRST_PROTOCOL_SUPPORTING_PERSISTENT_EVICTION ∧
      22 < FIRST_PROTOCOL_SUPPORTING_PERSISTENT_EVICTION) ∧
    (archivedStateConsistencyStart 22
        [(LedgerKey.contractCode 0, ⟨LedgerKey.contractCode 0, 0, 0, 0, 1⟩)]
        [(LedgerKey.contractCode 0, ⟨LedgerKey.contractCode 0, 0, 0, 0, 1⟩)] =
        none ∧
      checkOnLedgerCommit
        ⟨22, 5, [], [], [], [LedgerKey.ttl 0],
          [(LedgerKey.account 0, ⟨LedgerKey.account 0, 0, 0, 0, 1⟩)], []⟩ =
        none) :=
  ⟨⟨by decide, by decide⟩,
    archivedStateConsistency_noop_before_persistent_eviction 22
      [(LedgerKey.contractCode 0, ⟨LedgerKey.contractCode 0, 0, 0, 0, 1⟩)]
      [(LedgerKey.contractCode 0, ⟨LedgerKey.contractCode 0, 0, 0, 0, 1⟩)]
      ⟨22, 5, [], [], [], [LedgerKey.ttl 0],
        [(LedgerKey.account 0, ⟨LedgerKey.account 0, 0, 0, 0, 1⟩)], []⟩
      (by decide) (by decide)⟩

/-- C1 (code bug): at protocol 23 — before V24 — the restore checker still
reports the payload-mismatch failure when the `data` field of the hot-archive
record differs from the restore payload: in the source condition the
`protocolVersionStartsFrom(ledgerVer, V_24)` guard binds (via `&&`) only to
the `ext` comparison, while the `data` comparison stands alone on the left of
`||`, contradicting the adjacent source comment "Skip this check prior to
protocol 24".  Here the restored entry has `data = 1` and the archived record
`data = 2` with equal `ext`, every other restore check passes, and the
checker at protocol 23 reports the mismatch. -/
theorem checkRestoreInvariants_payload_check_fires_before_v24 :
    protocolVersionStartsFrom 23 PROTOCOL_V24 = false ∧
    checkRestoreInvariants []
        [(LedgerKey.contractData 0 0 .persistent,
          ⟨LedgerKey.contractData 0 0 .persistent, 0, 2, 0, 10⟩)]
        [(LedgerKey.contractData 0 0 .persistent,
          ⟨LedgerKey.contractData 0 0 .persistent, 0, 1, 0, 10⟩),
         (LedgerKey.ttl 3, ⟨LedgerKey.ttl 3, 0, 5, 0, 0⟩)]
        [] 100 23 =
      some (.archiveRestoreValueMismatch
        (LedgerKey.contractData 0 0 .persistent)) ∧
    checkRestoreInvariants []
        [(LedgerKey.contractData 0 0 .persistent,
          ⟨LedgerKey.contractData 0 0 .persistent, 0, 1, 7, 10⟩)]
        [(LedgerKey.contractData 0 0 .persistent,
          ⟨LedgerKey.contractData 0 0 .persistent, 0, 1, 0, 10⟩),
         (LedgerKey.ttl 3, ⟨LedgerKey.ttl 3, 0, 5, 0, 0⟩)]
        [] 100 23 = none := by
  refine ⟨by decide, by decide, by decide⟩

end StellarCore

namespace StellarCore

/-- The read-write loop of the restore validity check errors with `MALFORMED`
exactly when some key is not persistent. -/
theorem restoreCheckReadWriteKeys_error_iff (ks : List LedgerKey) :
    restoreCheckReadWriteKeys ks = .error .malformed ↔
      ∃ k ∈ ks, isPersistentEntry k = false := by
  induction ks with
  | nil => simp [restoreCheckReadWriteKeys]
  | cons k ks ih =>
    by_cases h : isPersistentEntry k = true
    · simp [restoreCheckReadWriteKeys, h, ih]
    · simp only [Bool.not_eq_true] at h
      simp [restoreCheckReadWriteKeys, h]

/-- The read-write loop of the restore validity check succeeds exactly when
every key is persistent. -/
theorem restoreCheckReadWriteKeys_ok_iff (ks : List LedgerKey) :
    restoreCheckReadWriteKeys ks = .ok () ↔
      ∀ k ∈ ks, isPersistentEntry k = true := by
  induction ks with
  | nil => simp [restoreCheckReadWriteKeys]
  | cons k ks ih =>
    by_cases h : isPersistentEntry k = true
    · simp [restoreCheckReadWriteKeys, h, ih]
    · simp only [Bool.not_eq_true] at h
      simp [restoreCheckReadWriteKeys, h]

/-- C5: `RestoreFootprintOpFrame::doCheckValidForSoroban` fails with
`MALFORMED` exactly when the read-only footprint is non-empty or some
read-write key is not a persistent contract key, and succeeds otherwise. -/
theorem restoreFootprintCheckValid_malformed_iff (footprint : LedgerFootprint) :
    (restoreFootprintDoCheckValidForSoroban footprint = .error .malformed ↔
      footprint.readOnly ≠ [] ∨
        ∃ k ∈ footprint.readWrite, isPersistentEntry k = false) ∧
    (restoreFootprintDoCheckValidForSoroban footprint = .ok () ↔
      footprint.readOnly = [] ∧
        ∀ k ∈ footprint.readWrite, isPersistentEntry k = true) := by
  cases hro : footprint.readOnly with
  | nil =>
    simp [restoreFootprintDoCheckValidForSoroban, hro,
      restoreCheckReadWriteKeys_error_iff, restoreCheckReadWriteKeys_ok_iff]
  | cons x xs =>
    simp [restoreFootprintDoCheckValidForSoroban, hro]

/-- The event-ingestion loop errors exactly when some prefix of the event
sizes pushes the accumulated counter over the limit (assuming the counter
starts within the limit). -/
theorem ingestContractEvents_error_iff (limit : Nat) (evs : List Nat)
    (acc : Nat) (hacc : acc ≤ limit) :
    ingestContractEvents limit evs acc = .error .resourceLimitExceeded ↔
      ∃ n, limit < acc + (evs.take n).sum := by
  induction evs generalizing acc with
  | nil =>
    simp only [ingestContractEvents, List.take_nil, List.sum_nil,
      Nat.add_zero]
    constructor
    · intro h; exact absurd h (by simp)
    · intro ⟨n, hn⟩; omega
  | cons e es ih =>
    by_cases hb : limit < acc + e
    · simp only [ingestContractEvents, if_pos hb]
      constructor
      · intro _; exact ⟨1, by simpa using hb⟩
      · intro _; trivial
    · simp only [ingestContractEvents, if_neg hb]
      rw [ih (acc + e) (by omega)]
      constructor
      · intro ⟨n, hn⟩
        exact ⟨n + 1, by simpa [Nat.add_assoc] using hn⟩
      · intro ⟨n, hn⟩
        cases n with
        | zero => simp at hn; omega
        | succ m =>
          exact ⟨m, by simpa [Nat.add_assoc] using hn⟩

/-- On the success path the event-ingestion loop returns the accumulated
total. -/
theorem ingestContractEvents_ok_val (limit : Nat) (evs : List Nat)
    (acc b : Nat) (h : ingestContractEvents limit evs acc = .ok b) :
    b = acc + evs.sum := by
  induction evs generalizing acc with
  | nil =>
    simp only [ingestContractEvents, Except.ok.injEq] at h
    simp [h]
  | cons e es ih =>
    by_cases hb : limit < acc + e
    · simp [ingestContractEvents, if_pos hb] at h
    · simp only [ingestContractEvents, if_neg hb] at h
      have := ih (acc + e) h
      simp [this, List.sum_cons]; omega

/-- The event-ingestion loop only ever errors with
`RESOURCE_LIMIT_EXCEEDED`. -/
theorem ingestContractEvents_error_code (limit : Nat) (evs : List Nat)
    (acc : Nat) (c : InvokeHostFunctionResultCode)
    (h : ingestContractEvents limit evs acc = .error c) :
    c = .resourceLimitExceeded := by
  induction evs generalizing acc with
  | nil => simp [ingestContractEvents] at h
  | cons e es ih =>
    by_cases hb : limit < acc + e
    · simp only [ingestContractEvents, if_pos hb, Except.error.injEq] at h
      exact h.symm
    · simp only [ingestContractEvents, if_neg hb] at h
      exact ih (acc + e) h

/-- C8: the total-event-size limit is enforced both while ingesting the
contract events and again after the return value's size is added: the
metering fails with `RESOURCE_LIMIT_EXCEEDED` exactly when some prefix of the
event sizes exceeds `txMaxContractEventsSizeBytes`, or the total of all event
sizes plus the return-value size exceeds it. -/
theorem meterEventsAndReturnValue_limit (limit : Nat) (eventSizes : List Nat)
    (resultValueSize : Nat) :
    meterEventsAndReturnValue limit eventSizes resultValueSize =
        .error .resourceLimitExceeded ↔
      (∃ n, limit < (eventSizes.take n).sum) ∨
        limit < eventSizes.sum + resultValueSize := by
  unfold meterEventsAndReturnValue
  cases hi : ingestContractEvents limit eventSizes 0 with
  | error c =>
    have hc := ingestContractEvents_error_code limit eventSizes 0 c hi
    subst hc
    simp only [true_iff]
    left
    have := (ingestContractEvents_error_iff limit eventSizes 0
      (Nat.zero_le _)).mp hi
    simpa using this
  | ok b =>
    have hb := ingestContractEvents_ok_val limit eventSizes 0 b hi
    simp only [Nat.zero_add] at hb
    subst hb
    have hnof : ¬∃ n, limit < (eventSizes.take n).sum := by
      intro hex
      have := (ingestContractEvents_error_iff limit eventSizes 0
        (Nat.zero_le _)).mpr (by simpa using hex)
      rw [hi] at this
      exact absurd this (by simp)
    by_cases hr : limit < eventSizes.sum + resultValueSize
    · simp [hr, hnof]
    · simp [hr, hnof]

/-- C3: the post-execution failure mapping of `ApplyHelper::apply`.  With
`success = false`: an internal error propagates as a thrown exception rather
than a typed result; otherwise the code is fixed in source order — the
instruction check first (`RESOURCE_LIMIT_EXCEEDED` with the
instructions diagnostic whenever the reported `cpu_insns` exceed the declared
instructions), then the memory check against the network `txMemoryLimit`, and
`TRAPPED` exactly when neither limit is exceeded. -/
theorem invokeResultMapping_failure_order (instructions txMemoryLimit : Nat)
    (out : InvokeHostFunctionOutput) (h : out.success = false) :
    (out.isInternalError = true →
      invokeResultMapping instructions txMemoryLimit out =
        some (.error ())) ∧
    (out.isInternalError = false →
      ((invokeResultMapping instructions txMemoryLimit out =
          some (.ok (.resourceLimitExceeded,
            [.exceededInsnLimit out.cpuInsns instructions])) ↔
        instructions < out.cpuInsns) ∧
      (invokeResultMapping instructions txMemoryLimit out =
          some (.ok (.resourceLimitExceeded,
            [.exceededMemLimit out.memBytes txMemoryLimit])) ↔
        out.cpuInsns ≤ instructions ∧ txMemoryLimit < out.memBytes) ∧
      (invokeResultMapping instructions txMemoryLimit out =
          some (.ok (.trapped, [])) ↔
        out.cpuInsns ≤ instructions ∧ out.memBytes ≤ txMemoryLimit))) := by
  constructor
  · intro hie
    simp [invokeResultMapping, h, hie]
  · intro hie
    refine ⟨?_, ?_, ?_⟩
    · by_cases hc : instructions < out.cpuInsns
      · simp [invokeResultMapping, h, hie, hc]
      · by_cases hm : txMemoryLimit < out.memBytes
        · simp [invokeResultMapping, h, hie, hc, hm]
        · simp [invokeResultMapping, h, hie, hc, hm]
    · by_cases hc : instructions < out.cpuInsns
      · simp [invokeResultMapping, h, hie, hc]
      · by_cases hm : txMemoryLimit < out.memBytes
        · simp [invokeResultMapping, h, hie, hc, hm]; omega
        · simp [invokeResultMapping, h, hie, hc, hm]
    · by_cases hc : instructions < out.cpuInsns
      · simp [invokeResultMapping, h, hie, hc]
      · by_cases hm : txMemoryLimit < out.memBytes
        · simp [invokeResultMapping, h, hie, hc, hm]
        · simp [invokeResultMapping, h, hie, hc, hm]; omega

/-- C3 (witness): a sandbox failure reporting 200 instructions against 100
declared maps to `RESOURCE_LIMIT_EXCEEDED` with the instructions diagnostic;
the internal-error, memory and trap characterizations are instantiated at the
same output. -/
theorem invokeResultMapping_failure_order_witness :
    ((⟨false, false, 200, 0⟩ : InvokeHostFunctionOutput).success = false) ∧
    (((⟨false, false, 200, 0⟩ : InvokeHostFunctionOutput).isInternalError =
        true →
      invokeResultMapping 100 10 ⟨false, false, 200, 0⟩ =
        some (.error ())) ∧
    ((⟨false, false, 200, 0⟩ : InvokeHostFunctionOutput).isInternalError =
        false →
      ((invokeResultMapping 100 10 ⟨false, false, 200, 0⟩ =
          some (.ok (.resourceLimitExceeded,
            [.exceededInsnLimit 200 100])) ↔
        100 < 200) ∧
      (invokeResultMapping 100 10 ⟨false, false, 200, 0⟩ =
          some (.ok (.resourceLimitExceeded,
            [.exceededMemLimit 0 10])) ↔
        200 ≤ 100 ∧ 10 < 0) ∧
      (invokeResultMapping 100 10 ⟨false, false, 200, 0⟩ =
          some (.ok (.trapped, [])) ↔
        200 ≤ 100 ∧ 0 ≤ 10)))) :=
  ⟨rfl, invokeResultMapping_failure_order 100 10 ⟨false, false, 200, 0⟩ rfl⟩

end StellarCore

namespace StellarCore

/-- C2: when `ApplyHelper::handleArchivedEntry` meets an archived persistent
key that is in the read-only footprint, or is read-write but not marked in
the autorestore bitmap, or the protocol does not support autorestore, the
operation fails with `ENTRY_ARCHIVED` after pushing the diagnostic describing
the key, and the state is otherwise untouched — in particular no restore is
performed and nothing is metered. -/
theorem handleArchivedEntry_entryArchived (ctx : ApplyHelperCtx)
    (st : InvokeApplyState) (lk : LedgerKey) (le : LedgerEntry)
    (isReadOnly : Bool) (restoredLiveUntilLedger : Nat)
    (isHotArchiveEntry : Bool) (index : Nat)
    (hp : isPersistentEntry lk = true)
    (hcond : isReadOnly = true ∨
      protocolVersionStartsFrom ctx.ledgerVersion
        FIRST_PROTOCOL_SUPPORTING_PERSISTENT_EVICTION = false ∨
      checkIfReadWriteEntryIsMarkedForAutorestore ctx.autorestoredEntries
        index = false) :
    handleArchivedEntry ctx st lk le isReadOnly restoredLiveUntilLedger
        isHotArchiveEntry index =
      .fail .entryArchived
        { st with diagnostics := st.diagnostics ++ archivedKeyDiagnostic lk } ∧
    archivedKeyDiagnostic lk ≠ [] := by
  constructor
  · unfold handleArchivedEntry
    rw [if_neg]
    rintro ⟨h1, h2, h3⟩
    rcases hcond with hc | hc | hc
    · rw [hc] at h1; exact absurd h1 (by simp)
    · rw [h2] at hc; exact absurd hc (by simp)
    · rw [h3] at hc; exact absurd hc (by simp)
  · cases lk with
    | contractCode h => simp [archivedKeyDiagnostic]
    | contractData c k d => simp [archivedKeyDiagnostic]
    | account i => simp [isPersistentEntry] at hp
    | trustline i => simp [isPersistentEntry] at hp
    | ttl h => simp [isPersistentEntry] at hp

/-- C2 (witness): an archived contract-code key in the read-only footprint at
protocol 23 fails with `ENTRY_ARCHIVED` and a code diagnostic, leaving stores,
metrics and buffers untouched. -/
theorem handleArchivedEntry_entryArchived_witness :
    (isPersistentEntry (LedgerKey.contractCode 7) = true ∧
      ((true : Bool) = true ∨
        protocolVersionStartsFrom 23
          FIRST_PROTOCOL_SUPPORTING_PERSISTENT_EVICTION = false ∨
        checkIfReadWriteEntryIsMarkedForAutorestore [] 0 = false)) ∧
    (handleArchivedEntry
        ⟨1, 23, ⟨1, 1, 1, 1, 1⟩, ⟨0, 0, 0, ⟨[], []⟩⟩, [], fun _ => 1⟩
        ⟨⟨[], [], []⟩, ⟨0, 0, 0, 0, 0, 0, 0⟩, [], [], []⟩
        (LedgerKey.contractCode 7) ⟨LedgerKey.contractCode 7, 0, 0, 0, 0⟩
        true 5 true 0 =
      .fail .entryArchived
        ⟨⟨[], [], []⟩, ⟨0, 0, 0, 0, 0, 0, 0⟩,
          [] ++ archivedKeyDiagnostic (LedgerKey.contractCode 7), [], []⟩ ∧
      archivedKeyDiagnostic (LedgerKey.contractCode 7) ≠ []) :=
  ⟨⟨by decide, Or.inl rfl⟩,
    handleArchivedEntry_entryArchived
      ⟨1, 23, ⟨1, 1, 1, 1, 1⟩, ⟨0, 0, 0, ⟨[], []⟩⟩, [], fun _ => 1⟩
      ⟨⟨[], [], []⟩, ⟨0, 0, 0, 0, 0, 0, 0⟩, [], [], []⟩
      (LedgerKey.contractCode 7) ⟨LedgerKey.contractCode 7, 0, 0, 0, 0⟩
      true 5 true 0 (by decide) (Or.inl rfl)⟩

/-- C6: a read-write key of the restore-footprint operation whose TTL entry
exists in the live state and is live at the current ledger is skipped
entirely: the loop step returns the state unchanged (no rent change, no
read/write metering, no store change), and the whole loop behaves as if the
key were absent from the footprint. -/
theorem restoreFootprintStep_skips_live_key (ctx : RestoreApplyCtx)
    (st : RestoreApplyState) (lk : LedgerKey) (ttlEntry : LedgerEntry)
    (h1 : lookupEntry st.stores.live (getTTLKey lk) = some ttlEntry)
    (h2 : isLive ttlEntry ctx.ledgerSeq = true) :
    ∀ restoredLiveUntilLedger rest,
      restoreFootprintStep ctx restoredLiveUntilLedger st lk = .ok st ∧
      restoreFootprintLoop ctx restoredLiveUntilLedger (lk :: rest) st =
        restoreFootprintLoop ctx restoredLiveUntilLedger rest st := by
  intro restoredLiveUntilLedger rest
  have hstep : restoreFootprintStep ctx restoredLiveUntilLedger st lk =
      .ok st := by
    unfold restoreFootprintStep
    rw [h1]
    simp [h2]
  exact ⟨hstep, by simp [restoreFootprintLoop, hstep]⟩

/-- C6 (witness): a persistent key whose TTL is live at the current ledger is
skipped by the concrete restore loop. -/
theorem restoreFootprintStep_skips_live_key_witness :
    (lookupEntry
        (⟨⟨[(LedgerKey.ttl 3, ⟨LedgerKey.ttl 3, 0, 100, 0, 0⟩)], [], []⟩,
          0, 0, [], []⟩ : RestoreApplyState).stores.live
        (getTTLKey (LedgerKey.contractData 0 0 .persistent)) =
      some ⟨LedgerKey.ttl 3, 0, 100, 0, 0⟩ ∧
      isLive ⟨LedgerKey.ttl 3, 0, 100, 0, 0⟩
        (⟨10, 23, ⟨1, 1, 1, 1, 1⟩, 0, 0, fun _ => 0, fun _ => 0,
          fun _ _ => true⟩ : RestoreApplyCtx).ledgerSeq = true) ∧
    (restoreFootprintStep
        ⟨10, 23, ⟨1, 1, 1, 1, 1⟩, 0, 0, fun _ => 0, fun _ => 0,
          fun _ _ => true⟩ 99
        ⟨⟨[(LedgerKey.ttl 3, ⟨LedgerKey.ttl 3, 0, 100, 0, 0⟩)], [], []⟩,
          0, 0, [], []⟩ (LedgerKey.contractData 0 0 .persistent) =
      .ok ⟨⟨[(LedgerKey.ttl 3, ⟨LedgerKey.ttl 3, 0, 100, 0, 0⟩)], [], []⟩,
        0, 0, [], []⟩ ∧
      restoreFootprintLoop
        ⟨10, 23, ⟨1, 1, 1, 1, 1⟩, 0, 0, fun _ => 0, fun _ => 0,
          fun _ _ => true⟩ 99
        [LedgerKey.contractData 0 0 .persistent, LedgerKey.contractCode 5]
        ⟨⟨[(LedgerKey.ttl 3, ⟨LedgerKey.ttl 3, 0, 100, 0, 0⟩)], [], []⟩,
          0, 0, [], []⟩ =
      restoreFootprintLoop
        ⟨10, 23, ⟨1, 1, 1, 1, 1⟩, 0, 0, fun _ => 0, fun _ => 0,
          fun _ _ => true⟩ 99 [LedgerKey.contractCode 5]
        ⟨⟨[(LedgerKey.ttl 3, ⟨LedgerKey.ttl 3, 0, 100, 0, 0⟩)], [], []⟩,
          0, 0, [], []⟩) :=
  ⟨⟨rfl, rfl⟩,
    restoreFootprintStep_skips_live_key
      ⟨10, 23, ⟨1, 1, 1, 1, 1⟩, 0, 0, fun _ => 0, fun _ => 0,
        fun _ _ => true⟩
      ⟨⟨[(LedgerKey.ttl 3, ⟨LedgerKey.ttl 3, 0, 100, 0, 0⟩)], [], []⟩,
        0, 0, [], []⟩ (LedgerKey.contractData 0 0 .persistent)
      ⟨LedgerKey.ttl 3, 0, 100, 0, 0⟩ rfl rfl 99 [LedgerKey.contractCode 5]⟩

end StellarCore


namespace StellarCore

/-- The restore actions recorded in the state carried by an invoke step
result. -/
def invokeStepResultRestores : InvokeStepResult → List RestoreAction
  | .ok st => st.stores.restores
  | .fail _ st => st.stores.restores
  | .abort => []

/-- The restore actions recorded in the state carried by a restore-op step
result. -/
def restoreStepResultRestores : RestoreStepResult → List RestoreAction
  | .ok st => st.stores.restores
  | .fail _ st => st.stores.restores
  | .abort => []

/-- The restore actions recorded by a completed restore-op apply. -/
def restoreApplyResultRestores : RestoreApplyResult → List RestoreAction
  | .done _ st => st.stores.restores
  | .abort => []

/-- `meterDiskReadResource` never touches the stores. -/
theorem meterDiskReadResource_stores (ctx : ApplyHelperCtx)
    (st : InvokeApplyState) (keySize entrySize : Nat) :
    (∀ st1, meterDiskReadResource ctx st keySize entrySize = .ok st1 →
      st1.stores = st.stores) ∧
    (∀ c st1, meterDiskReadResource ctx st keySize entrySize = .fail c st1 →
      st1.stores = st.stores) := by
  constructor
  · intro st1 h
    simp only [meterDiskReadResource] at h
    split at h
    · exact absurd h (by simp)
    · cases h; rfl
  · intro c st1 h
    simp only [meterDiskReadResource] at h
    split at h
    · cases h; rfl
    · exact absurd h (by simp)

/-- Every restore action recorded by `handleArchivedEntry` beyond the initial
ones carries the `restoredLiveUntilLedger` it was given. -/
theorem handleArchivedEntry_restores (ctx : ApplyHelperCtx)
    (st : InvokeApplyState) (lk : LedgerKey) (le : LedgerEntry)
    (isReadOnly : Bool) (restoredLiveUntilLedger : Nat)
    (isHotArchiveEntry : Bool) (index : Nat) (r : RestoreAction)
    (h : r ∈ invokeStepResultRestores
      (handleArchivedEntry ctx st lk le isReadOnly restoredLiveUntilLedger
        isHotArchiveEntry index)) :
    r ∈ st.stores.restores ∨ r.liveUntil = restoredLiveUntilLedger := by
  simp only [handleArchivedEntry] at h
  split at h
  · split at h
    · exact Or.inl (by simpa [invokeStepResultRestores] using h)
    · cases hm : meterDiskReadResource ctx st (ctx.keySizeBytes lk)
          le.entrySizeBytes with
      | ok st1 =>
        rw [hm] at h
        have hs := (meterDiskReadResource_stores ctx st
          (ctx.keySizeBytes lk) le.entrySizeBytes).1 st1 hm
        simp only [invokeStepResultRestores] at h
        by_cases hhot : isHotArchiveEntry = true
        · rw [if_pos hhot] at h
          simp only [restoreFromHotArchive, hs, List.mem_append,
            List.mem_singleton] at h
          rcases h with h | rfl
          · exact Or.inl h
          · exact Or.inr rfl
        · rw [if_neg hhot] at h
          simp only [restoreFromLiveBucketList, hs, List.mem_append,
            List.mem_singleton] at h
          rcases h with h | rfl
          · exact Or.inl h
          · exact Or.inr rfl
      | fail c st1 =>
        rw [hm] at h
        have hs := (meterDiskReadResource_stores ctx st
          (ctx.keySizeBytes lk) le.entrySizeBytes).2 c st1 hm
        simp only [invokeStepResultRestores, hs] at h
        exact Or.inl h
      | abort =>
        rw [hm] at h
        simp [invokeStepResultRestores] at h
  · exact Or.inl (by simpa [invokeStepResultRestores] using h)

/-- The load phase never touches the stores. -/
theorem addReadsLoadPhase_stores (st : InvokeApplyState) (lk : LedgerKey)
    (ttlEntry : Option Nat) (sorobanEntryLive : Bool)
    (st1 : InvokeApplyState) (es : Nat)
    (h : addReadsLoadPhase st lk ttlEntry sorobanEntryLive = some (st1, es)) :
    st1.stores = st.stores := by
  unfold addReadsLoadPhase at h
  split at h
  · cases hl : lookupEntry st.stores.live lk with
    | some ltxe =>
      rw [hl] at h
      simp only [Option.some.injEq, Prod.mk.injEq] at h
      rw [← h.1]
    | none =>
      rw [hl] at h
      by_cases hc : isSorobanEntry lk = true ∧ ttlEntry.isSome
      · rw [if_pos hc] at h
        exact absurd h (by simp)
      · rw [if_neg hc] at h
        simp only [Option.some.injEq, Prod.mk.injEq] at h
        rw [← h.1]
  · simp only [Option.some.injEq, Prod.mk.injEq] at h
    rw [← h.1]

/-- The validate-and-meter tail never touches the restore actions. -/
theorem addReadsValidateAndMeter_restores (ctx : ApplyHelperCtx)
    (st1 : InvokeApplyState) (lk : LedgerKey) (entrySize : Nat)
    (r : RestoreAction)
    (h : r ∈ invokeStepResultRestores
      (addReadsValidateAndMeter ctx st1 lk entrySize)) :
    r ∈ st1.stores.restores := by
  unfold addReadsValidateAndMeter at h
  split at h
  · simpa [invokeStepResultRestores] using h
  · split at h
    · cases hm : meterDiskReadResource ctx st1 (ctx.keySizeBytes lk)
          entrySize with
      | ok st2 =>
        rw [hm] at h
        have hs := (meterDiskReadResource_stores ctx st1
          (ctx.keySizeBytes lk) entrySize).1 st2 hm
        simpa [invokeStepResultRestores, hs] using h
      | fail c st2 =>
        rw [hm] at h
        have hs := (meterDiskReadResource_stores ctx st1
          (ctx.keySizeBytes lk) entrySize).2 c st2 hm
        simpa [invokeStepResultRestores, hs] using h
      | abort =>
        rw [hm] at h
        simp [invokeStepResultRestores] at h
    · split at h
      · simpa [invokeStepResultRestores] using h
      · simpa [invokeStepResultRestores] using h

/-- `addReadsTail` never touches the restore actions. -/
theorem addReadsTail_restores (ctx : ApplyHelperCtx) (st : InvokeApplyState)
    (lk : LedgerKey) (ttlEntry : Option Nat) (sorobanEntryLive : Bool)
    (r : RestoreAction)
    (h : r ∈ invokeStepResultRestores
      (addReadsTail ctx st lk ttlEntry sorobanEntryLive)) :
    r ∈ st.stores.restores := by
  unfold addReadsTail at h
  cases hl : addReadsLoadPhase st lk ttlEntry sorobanEntryLive with
  | none =>
    rw [hl] at h
    simp [invokeStepResultRestores] at h
  | some p =>
    obtain ⟨st1, es⟩ := p
    rw [hl] at h
    have hs := addReadsLoadPhase_stores st lk ttlEntry sorobanEntryLive st1
      es hl
    have hmem := addReadsValidateAndMeter_restores ctx st1 lk es r
      (by simpa using h)
    rwa [hs] at hmem

/-- Every restore action recorded by one `addReads` step beyond the initial
ones carries the `restoredLiveUntilLedger` of the loop. -/
theorem addReadsStep_restores (ctx : ApplyHelperCtx) (st : InvokeApplyState)
    (isReadOnly : Bool) (restoredLiveUntilLedger : Nat) (lk : LedgerKey)
    (index : Nat) (r : RestoreAction)
    (h : r ∈ invokeStepResultRestores
      (addReadsStep ctx st isReadOnly restoredLiveUntilLedger lk index)) :
    r ∈ st.stores.restores ∨ r.liveUntil = restoredLiveUntilLedger := by
  unfold addReadsStep at h
  split at h
  · split at h
    · split at h
      · split at h
        · split at h
          · simp [invokeStepResultRestores] at h
          · exact handleArchivedEntry_restores ctx st lk _ isReadOnly
              restoredLiveUntilLedger false index r h
        · exact Or.inl (addReadsTail_restores ctx st lk none false r h)
      · exact Or.inl (addReadsTail_restores ctx st lk _ true r h)
    · split at h
      · split at h
        · exact handleArchivedEntry_restores ctx st lk _ isReadOnly
            restoredLiveUntilLedger true index r h
        · exact Or.inl (addReadsTail_restores ctx st lk none false r h)
      · exact Or.inl (addReadsTail_restores ctx st lk none false r h)
  · exact Or.inl (addReadsTail_restores ctx st lk none false r h)

/-- Every restore action recorded by the `addReads` loop beyond the initial
ones carries the `restoredLiveUntilLedger` of the loop. -/
theorem addReadsLoop_restores (ctx : ApplyHelperCtx) (isReadOnly : Bool)
    (restoredLiveUntilLedger : Nat) (keys : List LedgerKey) (index : Nat)
    (st : InvokeApplyState) (r : RestoreAction)
    (h : r ∈ invokeStepResultRestores
      (addReadsLoop ctx isReadOnly restoredLiveUntilLedger keys index st)) :
    r ∈ st.stores.restores ∨ r.liveUntil = restoredLiveUntilLedger := by
  induction keys generalizing index st with
  | nil =>
    exact Or.inl (by simpa [addReadsLoop, invokeStepResultRestores] using h)
  | cons lk rest ih =>
    unfold addReadsLoop at h
    cases hstep : addReadsStep ctx st isReadOnly restoredLiveUntilLedger lk
        index with
    | ok st1 =>
      rw [hstep] at h
      have h1 : r ∈ invokeStepResultRestores
          (addReadsLoop ctx isReadOnly restoredLiveUntilLedger rest
            (index + 1) st1) := by simpa using h
      rcases ih (index + 1) st1 h1 with hmem | hlu
      · exact addReadsStep_restores ctx st isReadOnly restoredLiveUntilLedger
          lk index r (by rw [hstep]; simpa [invokeStepResultRestores]
            using hmem)
      · exact Or.inr hlu
    | fail c st1 =>
      rw [hstep] at h
      exact addReadsStep_restores ctx st isReadOnly restoredLiveUntilLedger
        lk index r (by rw [hstep]; simpa using h)
    | abort =>
      rw [hstep] at h
      simp [invokeStepResultRestores] at h

end StellarCore

namespace StellarCore

/-- Every restore action recorded by the restore-op metering/restore body
beyond the initial ones carries the `restoredLiveUntilLedger` it was
given. -/
theorem restoreFootprintProcess_restores (ctx : RestoreApplyCtx)
    (restoredLiveUntilLedger : Nat) (st : RestoreApplyState) (lk : LedgerKey)
    (hotArchiveEntry : Option LedgerEntry) (r : RestoreAction)
    (h : r ∈ restoreStepResultRestores
      (restoreFootprintProcess ctx restoredLiveUntilLedger st lk
        hotArchiveEntry)) :
    r ∈ st.stores.restores ∨ r.liveUntil = restoredLiveUntilLedger := by
  simp only [restoreFootprintProcess] at h
  split at h
  · simp [restoreStepResultRestores] at h
  · split at h
    · exact Or.inl (by simpa [restoreStepResultRestores] using h)
    · split at h
      · exact Or.inl (by simpa [restoreStepResultRestores] using h)
      · split at h
        · exact Or.inl (by simpa [restoreStepResultRestores] using h)
        · split at h
          · simp only [restoreStepResultRestores, restoreFromHotArchive,
              List.mem_append, List.mem_singleton] at h
            rcases h with h | rfl
            · exact Or.inl h
            · exact Or.inr rfl
          · split at h
            · simp [restoreStepResultRestores] at h
            · simp only [restoreStepResultRestores,
                restoreFromLiveBucketList, List.mem_append,
                List.mem_singleton] at h
              rcases h with h | rfl
              · exact Or.inl h
              · exact Or.inr rfl

/-- Every restore action recorded by one restore-op loop step beyond the
initial ones carries the `restoredLiveUntilLedger` of the loop. -/
theorem restoreFootprintStep_restores (ctx : RestoreApplyCtx)
    (restoredLiveUntilLedger : Nat) (st : RestoreApplyState) (lk : LedgerKey)
    (r : RestoreAction)
    (h : r ∈ restoreStepResultRestores
      (restoreFootprintStep ctx restoredLiveUntilLedger st lk)) :
    r ∈ st.stores.restores ∨ r.liveUntil = restoredLiveUntilLedger := by
  unfold restoreFootprintStep at h
  split at h
  · split at h
    · split at h
      · exact Or.inl (by simpa [restoreStepResultRestores] using h)
      · exact restoreFootprintProcess_restores ctx restoredLiveUntilLedger
          st lk _ r h
    · exact Or.inl (by simpa [restoreStepResultRestores] using h)
  · split at h
    · exact Or.inl (by simpa [restoreStepResultRestores] using h)
    · exact restoreFootprintProcess_restores ctx restoredLiveUntilLedger
        st lk none r h

/-- Every restore action recorded by the restore-op loop beyond the initial
ones carries the `restoredLiveUntilLedger` of the loop. -/
theorem restoreFootprintLoop_restores (ctx : RestoreApplyCtx)
    (restoredLiveUntilLedger : Nat) (keys : List LedgerKey)
    (st : RestoreApplyState) (r : RestoreAction)
    (h : r ∈ restoreStepResultRestores
      (restoreFootprintLoop ctx restoredLiveUntilLedger keys st)) :
    r ∈ st.stores.restores ∨ r.liveUntil = restoredLiveUntilLedger := by
  induction keys generalizing st with
  | nil =>
    exact Or.inl
      (by simpa [restoreFootprintLoop, restoreStepResultRestores] using h)
  | cons lk rest ih =>
    unfold restoreFootprintLoop at h
    cases hstep : restoreFootprintStep ctx restoredLiveUntilLedger st lk with
    | ok st1 =>
      rw [hstep] at h
      have h1 : r ∈ restoreStepResultRestores
          (restoreFootprintLoop ctx restoredLiveUntilLedger rest st1) := by
        simpa using h
      rcases ih st1 h1 with hmem | hlu
      · exact restoreFootprintStep_restores ctx restoredLiveUntilLedger st
          lk r (by rw [hstep]; simpa [restoreStepResultRestores] using hmem)
      · exact Or.inr hlu
    | fail c st1 =>
      rw [hstep] at h
      exact restoreFootprintStep_restores ctx restoredLiveUntilLedger st lk r
        (by rw [hstep]; simpa using h)
    | abort =>
      rw [hstep] at h
      simp [restoreStepResultRestores] at h

/-- Every restore action recorded by a restore-footprint apply beyond the
initial ones has its TTL at `ledgerSeq + minPersistentTTL - 1`. -/
theorem restoreFootprintDoApply_restores (ctx : RestoreApplyCtx)
    (footprint : LedgerFootprint) (st : RestoreApplyState) (r : RestoreAction)
    (h : r ∈ restoreApplyResultRestores
      (restoreFootprintDoApply ctx footprint st)) :
    r ∈ st.stores.restores ∨
      r.liveUntil = ctx.ledgerSeq + ctx.sorobanConfig.minPersistentTTL - 1 := by
  simp only [restoreFootprintDoApply] at h
  cases hl : restoreFootprintLoop ctx
      (ctx.ledgerSeq + ctx.sorobanConfig.minPersistentTTL - 1)
      footprint.readWrite st with
  | ok st1 =>
    rw [hl] at h
    have h1 : r ∈ st1.stores.restores := by
      by_cases hc : ctx.consumeRefundableOk 0
          (ctx.computeRentFee st1.rentChanges) = true
      · simpa [restoreApplyResultRestores, hc] using h
      · simpa [restoreApplyResultRestores, hc] using h
    exact restoreFootprintLoop_restores ctx _ footprint.readWrite st r
      (by rw [hl]; simpa [restoreStepResultRestores] using h1)
  | fail c st1 =>
    rw [hl] at h
    exact restoreFootprintLoop_restores ctx _ footprint.readWrite st r
      (by rw [hl]; simpa [restoreStepResultRestores,
        restoreApplyResultRestores] using h)
  | abort =>
    rw [hl] at h
    simp [restoreApplyResultRestores] at h

/-- C4: every restoration of a persistent entry — by the restore-footprint
operation or by autorestore during the invoke footprint assembly — writes the
restored TTL to exactly `current_ledger_seq + min_persistent_ttl - 1`,
whether the entry came from the hot archive or from an expired entry still in
the live state (both ops start with an empty restore delta). -/
theorem restoredTTL_is_minimum_ttl (ctx : RestoreApplyCtx)
    (footprint : LedgerFootprint) (st : RestoreApplyState)
    (ctx2 : ApplyHelperCtx) (st2 : InvokeApplyState) (keys : List LedgerKey)
    (isReadOnly : Bool) (r r2 : RestoreAction)
    (h0 : st.stores.restores = []) (h02 : st2.stores.restores = [])
    (hr : r ∈ restoreApplyResultRestores
      (restoreFootprintDoApply ctx footprint st))
    (hr2 : r2 ∈ invokeStepResultRestores
      (addReads ctx2 st2 keys isReadOnly)) :
    r.liveUntil = ctx.ledgerSeq + ctx.sorobanConfig.minPersistentTTL - 1 ∧
    r2.liveUntil = ctx2.ledgerSeq + ctx2.sorobanConfig.minPersistentTTL - 1 := by
  constructor
  · rcases restoreFootprintDoApply_restores ctx footprint st r hr with hm | hv
    · rw [h0] at hm; exact absurd hm (by simp)
    · exact hv
  · rcases addReadsLoop_restores ctx2 isReadOnly
        (ctx2.ledgerSeq + ctx2.sorobanConfig.minPersistentTTL - 1) keys 0 st2
        r2 (by simpa [addReads] using hr2) with hm | hv
    · rw [h02] at hm; exact absurd hm (by simp)
    · exact hv

end StellarCore

namespace StellarCore

/-- C4 (witness): a hot-archive restore through the restore op and an
autorestore through the invoke footprint assembly, both at ledger 10 with
`minPersistentTTL = 5`, write TTL `14 = 10 + 5 - 1`. -/
theorem restoredTTL_is_minimum_ttl_witness :
    ((⟨⟨[], [(LedgerKey.contractData 0 0 .persistent,
        ⟨LedgerKey.contractData 0 0 .persistent, 0, 9, 0, 4⟩)], []⟩,
        0, 0, [], []⟩ : RestoreApplyState).stores.restores = [] ∧
      (⟨⟨[], [(LedgerKey.contractData 0 0 .persistent,
        ⟨LedgerKey.contractData 0 0 .persistent, 0, 9, 0, 4⟩)], []⟩,
        ⟨0, 0, 0, 0, 0, 0, 0⟩, [], [], []⟩ :
          InvokeApplyState).stores.restores = [] ∧
      (⟨true, ⟨LedgerKey.contractData 0 0 .persistent, 0, 9, 0, 4⟩, 14⟩ :
          RestoreAction) ∈
        restoreApplyResultRestores (restoreFootprintDoApply
          ⟨10, 23, ⟨5, 100, 100, 100, 10⟩, 100, 100, fun _ => 1, fun _ => 0,
            fun _ _ => true⟩
          ⟨[], [LedgerKey.contractData 0 0 .persistent]⟩
          ⟨⟨[], [(LedgerKey.contractData 0 0 .persistent,
            ⟨LedgerKey.contractData 0 0 .persistent, 0, 9, 0, 4⟩)], []⟩,
            0, 0, [], []⟩) ∧
      (⟨true, ⟨LedgerKey.contractData 0 0 .persistent, 0, 9, 0, 4⟩, 14⟩ :
          RestoreAction) ∈
        invokeStepResultRestores (addReads
          ⟨10, 23, ⟨5, 100, 100, 100, 10⟩,
            ⟨0, 100, 100, ⟨[], [LedgerKey.contractData 0 0 .persistent]⟩⟩,
            [true], fun _ => 1⟩
          ⟨⟨[], [(LedgerKey.contractData 0 0 .persistent,
            ⟨LedgerKey.contractData 0 0 .persistent, 0, 9, 0, 4⟩)], []⟩,
            ⟨0, 0, 0, 0, 0, 0, 0⟩, [], [], []⟩
          [LedgerKey.contractData 0 0 .persistent] false)) ∧
    ((⟨true, ⟨LedgerKey.contractData 0 0 .persistent, 0, 9, 0, 4⟩, 14⟩ :
        RestoreAction).liveUntil = 10 + 5 - 1 ∧
      (⟨true, ⟨LedgerKey.contractData 0 0 .persistent, 0, 9, 0, 4⟩, 14⟩ :
        RestoreAction).liveUntil = 10 + 5 - 1) :=
  ⟨⟨rfl, rfl, by decide, by decide⟩,
    restoredTTL_is_minimum_ttl
      ⟨10, 23, ⟨5, 100, 100, 100, 10⟩, 100, 100, fun _ => 1, fun _ => 0,
        fun _ _ => true⟩
      ⟨[], [LedgerKey.contractData 0 0 .persistent]⟩
      ⟨⟨[], [(LedgerKey.contractData 0 0 .persistent,
        ⟨LedgerKey.contractData 0 0 .persistent, 0, 9, 0, 4⟩)], []⟩,
        0, 0, [], []⟩
      ⟨10, 23, ⟨5, 100, 100, 100, 10⟩,
        ⟨0, 100, 100, ⟨[], [LedgerKey.contractData 0 0 .persistent]⟩⟩,
        [true], fun _ => 1⟩
      ⟨⟨[], [(LedgerKey.contractData 0 0 .persistent,
        ⟨LedgerKey.contractData 0 0 .persistent, 0, 9, 0, 4⟩)], []⟩,
        ⟨0, 0, 0, 0, 0, 0, 0⟩, [], [], []⟩
      [LedgerKey.contractData 0 0 .persistent] false
      ⟨true, ⟨LedgerKey.contractData 0 0 .persistent, 0, 9, 0, 4⟩, 14⟩
      ⟨true, ⟨LedgerKey.contractData 0 0 .persistent, 0, 9, 0, 4⟩, 14⟩
      rfl rfl (by decide) (by decide)⟩

end StellarCore

namespace StellarCore

/-- When every matched registered name is still un-enabled and the registered
names are distinct, the enable loop appends exactly the matched names, in
registration order, and reports whether it enabled some. -/
theorem enableInvariantLoop_ok (matchName : String → Bool)
    (ks : List String) (enabled : List String) (enabledSome : Bool)
    (hnodup : ks.Nodup)
    (hfree : ∀ name ∈ ks, matchName name = true → name ∉ enabled) :
    enableInvariantLoop matchName ks enabled enabledSome =
      .ok (enabled ++ ks.filter (fun n => matchName n),
        enabledSome || ks.any (fun n => matchName n)) := by
  induction ks generalizing enabled enabledSome with
  | nil => simp [enableInvariantLoop]
  | cons n ks ih =>
    have hnd := List.nodup_cons.mp hnodup
    by_cases hm : matchName n = true
    · have hnotin : n ∉ enabled := hfree n (by simp) hm
      have hfree2 : ∀ name ∈ ks, matchName name = true →
          name ∉ enabled ++ [n] := by
        intro name hname hmn
        have h1 := hfree name (by simp [hname]) hmn
        have h2 : name ≠ n := by
          intro heq; subst heq; exact hnd.1 hname
        simp [h1, h2]
      simp only [enableInvariantLoop]
      rw [if_pos hm, if_neg (by simpa using hnotin),
        ih (enabled ++ [n]) true hnd.2 hfree2]
      simp [List.filter_cons, hm, List.any_cons, List.append_assoc]
    · have hfree2 : ∀ name ∈ ks, matchName name = true → name ∉ enabled := by
        intro name hname hmn
        exact hfree name (by simp [hname]) hmn
      simp only [enableInvariantLoop]
      rw [if_neg hm, ih enabled enabledSome hnd.2 hfree2]
      simp [List.filter_cons, hm, List.any_cons]

/-- When some matched registered name is already enabled, the enable loop
throws the already-enabled error. -/
theorem enableInvariantLoop_alreadyEnabled (matchName : String → Bool)
    (ks : List String) (enabled : List String) (enabledSome : Bool)
    (hbad : ∃ name ∈ ks, matchName name = true ∧ name ∈ enabled) :
    ∃ nm, enableInvariantLoop matchName ks enabled enabledSome =
      .error (.alreadyEnabled nm) := by
  induction ks generalizing enabled enabledSome with
  | nil => simp at hbad
  | cons n ks ih =>
    by_cases hm : matchName n = true
    · by_cases hin : n ∈ enabled
      · refine ⟨n, ?_⟩
        simp only [enableInvariantLoop]
        rw [if_pos hm, if_pos (by simpa using hin)]
      · obtain ⟨name, hname, hnm, hne⟩ := hbad
        rcases List.mem_cons.mp hname with rfl | hmem
        · exact absurd hne hin
        · have hbad2 : ∃ name ∈ ks, matchName name = true ∧
              name ∈ enabled ++ [n] := ⟨name, hmem, hnm, by simp [hne]⟩
          obtain ⟨nm, hres⟩ := ih (enabled ++ [n]) true hbad2
          refine ⟨nm, ?_⟩
          simp only [enableInvariantLoop]
          rw [if_pos hm, if_neg (by simpa using hin), hres]
    · obtain ⟨name, hname, hnm, hne⟩ := hbad
      rcases List.mem_cons.mp hname with rfl | hmem
      · exact absurd hnm hm
      · obtain ⟨nm, hres⟩ := ih enabled enabledSome ⟨name, hmem, hnm, hne⟩
        refine ⟨nm, ?_⟩
        simp only [enableInvariantLoop]
        rw [if_neg hm, hres]

/-- C9: `InvariantManagerImpl::enableInvariant` over an abstract compiled
pattern (`compileRegex` stands for `std::regex(pattern, ECMAScript | icase)`
construction, yielding the `regex_match` predicate, and `none` for an invalid
regex): an empty pattern throws, an invalid regex throws, a pattern matching
an already-enabled invariant throws, a pattern matching no registered
invariant throws, and otherwise every matched not-yet-enabled invariant is
appended to the enabled list. -/
theorem enableInvariant_spec (registered enabled : List String)
    (invPattern : String) (compileRegex : String → Option (String → Bool)) :
    (invPattern = "" →
      enableInvariant registered enabled invPattern compileRegex =
        .error .emptyPattern) ∧
    (invPattern ≠ "" → compileRegex invPattern = none →
      enableInvariant registered enabled invPattern compileRegex =
        .error .invalidRegex) ∧
    ∀ m, invPattern ≠ "" → compileRegex invPattern = some m →
      (registered.Nodup →
        (∀ name ∈ registered, m name = true → name ∉ enabled) →
        ((∃ name ∈ registered, m name = true) →
          enableInvariant registered enabled invPattern compileRegex =
            .ok (enabled ++ registered.filter (fun n => m n))) ∧
        ((∀ name ∈ registered, m name = false) →
          enableInvariant registered enabled invPattern compileRegex =
            .error .noMatch)) ∧
      ((∃ name ∈ registered, m name = true ∧ name ∈ enabled) →
        ∃ nm, enableInvariant registered enabled invPattern compileRegex =
          .error (.alreadyEnabled nm)) := by
  refine ⟨?_, ?_, ?_⟩
  · intro hp
    simp [enableInvariant, hp]
  · intro hp hc
    simp [enableInvariant, hp, hc]
  · intro m hp hc
    constructor
    · intro hnodup hfree
      constructor
      · intro hex
        have hany : registered.any (fun n => m n) = true := by
          rw [List.any_eq_true]
          obtain ⟨name, hmem, hm⟩ := hex
          exact ⟨name, hmem, hm⟩
        simp [enableInvariant, hp, hc,
          enableInvariantLoop_ok m registered enabled false hnodup hfree,
          hany]
      · intro hnone
        have hany : registered.any (fun n => m n) = false := by
          rw [List.any_eq_false]
          intro name hmem
          simp [hnone name hmem]
        simp [enableInvariant, hp, hc,
          enableInvariantLoop_ok m registered enabled false hnodup
            (by intro name hmem hm; rw [hnone name hmem] at hm; cases hm),
          hany]
    · intro hbad
      obtain ⟨nm, hres⟩ :=
        enableInvariantLoop_alreadyEnabled m registered enabled false hbad
      exact ⟨nm, by simp [enableInvariant, hp, hc, hres]⟩

end StellarCore

namespace StellarCore

/-- C9 (witness): with registered invariants `["A", "B"]` and a compiled
pattern matching exactly `"A"`, enabling from an empty enabled list appends
`"A"`, and enabling when `"A"` is already enabled throws the already-enabled
error. -/
theorem enableInvariant_spec_witness :
    enableInvariant ["A", "B"] [] "a"
        (fun p => if p = "a" then some (fun n => n == "A") else none) =
      .ok ([] ++ ["A", "B"].filter (fun n => n == "A")) ∧
    ∃ nm, enableInvariant ["A", "B"] ["A"] "a"
        (fun p => if p = "a" then some (fun n => n == "A") else none) =
      .error (.alreadyEnabled nm) :=
  ⟨(((enableInvariant_spec ["A", "B"] [] "a"
      (fun p => if p = "a" then some (fun n => n == "A") else none)).2.2
      (fun n => n == "A") (by simp) rfl).1 (by simp) (by simp)).1
      ⟨"A", by simp, rfl⟩,
    ((enableInvariant_spec ["A", "B"] ["A"] "a"
      (fun p => if p = "a" then some (fun n => n == "A") else none)).2.2
      (fun n => n == "A") (by simp) rfl).2 ⟨"A", by simp, rfl, by simp⟩⟩

end StellarCore
